import Mathlib

/-!
# Verification of `idaes/models/unit_models/unit_selector_prototype_v3.py`

Shallow embedding of the `UnitSelectorData` class (the unit-selector GDP
prototype).  Pyomo blocks are modelled as finite maps from attribute names to
components; the only component details retained are the ones the selector's
code inspects: branch (Disjunct) indices, the component names stored inside
each branch (used by `add_component`'s duplicate-name check), the created
`Arc`s with their endpoints, and the disjunct list referenced by the
`Disjunction`.

External collaborators (Pyomo's `Block`/`Disjunct`/`Disjunction`/`Arc`
machinery, the property-package state-block factory) are modelled through the
narrow behaviour the selector code relies on:
* `getattr` on a block raises `AttributeError` when the attribute is absent;
* `Block.add_component` raises a duplicate-component error (`RuntimeError` in
  Pyomo) when the name is already declared on the target block;
* assigning a component to an attribute that already holds one *implicitly
  replaces* the old component (Pyomo logs a warning and replaces; it never
  keeps two components under one name);
* a `Disjunction` records its list of disjuncts, and its feasible region is
  the exactly-one ("xor") constraint over their activation indicators;
* `list[0]` on an empty Python list raises `IndexError`.
-/

namespace UnitSelectorV3

/-- `RangeSet(n)` from Pyomo: the 1-based index list `[1, 2, ..., n]`. -/
def rangeSet (n : Nat) : List Nat := List.range' 1 n

/-- Attribute name of the branch `i` Disjunct: `unit_disjunct_<i>`
(source: `create_unit_disjunct`). -/
def unitDisjunctName (i : Nat) : String := "unit_disjunct_" ++ toString i

/-- Deterministic name of branch `i`'s inlet edge: `inlet_to_unit_arc_<i>`
(source: `arc_selector_inlet_to_unit`). -/
def inletArcName (i : Nat) : String := "inlet_to_unit_arc_" ++ toString i

/-- Deterministic name of branch `i`'s outlet edge: `unit_to_outlet_arc_<i>`
(source: `arc_unit_outlet_to_selector`). -/
def outletArcName (i : Nat) : String := "unit_to_outlet_arc_" ++ toString i

/-- Exposed connector name `inlet_<k>` / `outlet_<k>`
(source: `create_inlet_list` / `create_outlet_list`). -/
def portName (isInlet : Bool) (k : Nat) : String :=
  (if isInlet then "inlet_" else "outlet_") ++ toString k

/-- The Python exceptions the modelled code paths can surface.  The modelled
module itself contains no `raise` statement; every error below originates in
a collaborator call (`getattr`, `add_component`, list indexing, or a
candidate's `initialize`).  `configurationError` and `burntToast` are the
IDAES exception classes the spec names; they are included so that theorems
can state that the code does *not* produce them. -/
inductive PyError where
  /-- `AttributeError` from `getattr` on a missing attribute. -/
  | attributeError (attr : String)
  /-- Pyomo's duplicate-component `RuntimeError` from `add_component`. -/
  | duplicateComponent (branch : Nat) (name : String)
  /-- `IndexError` from `lst[0]` on an empty list. -/
  | indexError
  /-- `idaes.core.util.exceptions.InitializationError`. -/
  | initializationError
  /-- `idaes.core.util.exceptions.ConfigurationError`. -/
  | configurationError
  /-- `idaes.core.util.exceptions.BurntToast`. -/
  | burntToast
  deriving DecidableEq, Repr, Inhabited

/-- Endpoint of a `ConnectionEdge` (Pyomo `Arc`): either one of the
selector's own ports (`inlet_<k>` / `outlet_<k>`) or an opaque connection
point of a candidate unit (identified by the id the configuration supplied
it under). -/
inductive EndPt where
  /-- The selector's port `inlet_<k>`. -/
  | selIn (k : Nat)
  /-- The selector's port `outlet_<k>`. -/
  | selOut (k : Nat)
  /-- A candidate unit's connection point, opaque to the selector. -/
  | uPort (p : Nat)
  deriving DecidableEq, Repr

/-- One created `Arc`: the branch (Disjunct) it was added to, the component
name it was added under, and its source/destination connection points. -/
structure ArcRec where
  branch : Nat
  name : String
  src : EndPt
  dst : EndPt
  deriving DecidableEq, Repr

/-- The modelled state of the selector model object: the top-level component
attribute names, the branches living on `selector_block` (branch index ↦
component names declared on that Disjunct, in declaration order), every Arc
created so far, and the branch indices referenced by `unit_disjunction`. -/
structure ModelState where
  topAttrs : List String
  branches : List (Nat × List String)
  arcs : List ArcRec
  disjunction : List Nat
  deriving DecidableEq, Repr, Inhabited

/-- The model object before any build: no components at all. -/
def emptyModel : ModelState := ⟨[], [], [], []⟩

/-- Component names currently declared on branch `b` (empty when the branch
does not exist). -/
def getComps : List (Nat × List String) → Nat → List String
  | [], _ => []
  | e :: rest, b => if e.1 = b then e.2 else getComps rest b

/-- Replace the component-name list of branch `b` (appending the branch when
it is not present). -/
def setComps : List (Nat × List String) → Nat → List String → List (Nat × List String)
  | [], b, v => [(b, v)]
  | e :: rest, b, v => if e.1 = b then (b, v) :: rest else e :: setComps rest b v

/-- Pyomo `setattr` of a component on the top-level model: when the name is
already taken, the existing component is implicitly replaced (Pyomo logs a
warning and swaps the component; the attribute set keeps a single entry). -/
def putAttr (l : List String) (n : String) : List String :=
  if n ∈ l then l else l ++ [n]

def putAttrs (l : List String) (ns : List String) : List String :=
  ns.foldl putAttr l

/-- `getattr(self.selector_block, f"unit_disjunct_{c}")`: succeeds exactly
when branch `c` exists (branches `1..n` are created by
`create_unit_disjunct`); otherwise Python raises `AttributeError`. -/
def getDisjunct (n c : Nat) : Except PyError Unit :=
  if 1 ≤ c ∧ c ≤ n then .ok () else .error (.attributeError (unitDisjunctName c))

/-- `getattr(self, f"inlet_{k}")` (resp. `outlet_{k}`): the connector exists
exactly when `construct_ports` was true and `k` is one of the `1..m`
declared indices (`add_port_objects`); otherwise `AttributeError`. -/
def getPort (m : Nat) (cp : Bool) (isInlet : Bool) (k : Nat) : Except PyError Unit :=
  if cp = true ∧ 1 ≤ k ∧ k ≤ m then .ok ()
  else .error (.attributeError (portName isInlet k))

/-- `disjunct.add_component(name, Arc(...))`: fails with Pyomo's
duplicate-component error when `name` is already declared on branch `b`,
otherwise records the name on the branch and the Arc in creation order. -/
def addArc (st : ModelState) (a : ArcRec) : Except PyError ModelState :=
  if a.name ∈ getComps st.branches a.branch then
    .error (.duplicateComponent a.branch a.name)
  else
    .ok { st with
          branches := setComps st.branches a.branch (getComps st.branches a.branch ++ [a.name])
          arcs := st.arcs ++ [a] }

/-- `disjunct.add_component(name, unit)` for a non-Arc component (used when a
candidate unit is relocated into its branch): same duplicate-name check,
no Arc recorded. -/
def addNamed (st : ModelState) (b : Nat) (nm : String) : Except PyError ModelState :=
  if nm ∈ getComps st.branches b then .error (.duplicateComponent b nm)
  else .ok { st with branches := setComps st.branches b (getComps st.branches b ++ [nm]) }

/-! ## Configuration

`CONFIG` of `UnitSelectorData`, restricted to the options the build and
initialization paths actually read.  Candidate units are identified by their
`local_name`; their connection points by opaque ids.  `unit_source` /
`unit_sink` are collapsed to whether a template with retrievable
configuration was supplied (its only use is `unit_type.config...`, an
attribute access that raises `AttributeError` when the option was left at
its `None` default).  `mixed_state_block` is carried verbatim: the source
declares it (lines 133-145) and never reads it. -/
structure SelConfig where
  unit_disjunct : List String
  unit_source : Bool
  unit_sink : Bool
  unit_disjunct_inlet : List (Nat × List Nat)
  unit_disjunct_outlet : List (Nat × List Nat)
  mixed_state_block : Option Nat
  construct_ports : Bool
  deriving DecidableEq, Repr

/-! ## Build stages (translated one method at a time from the source) -/

/-- `self.selector_block = Block()` (build, line 180).  A fresh empty `Block`
is assigned: any previous `selector_block` — with every Disjunct, Arc and the
Disjunction inside it — is implicitly replaced, so the branch/arc/disjunction
part of the state is reset. -/
def assignSelectorBlock (st : ModelState) : ModelState :=
  { topAttrs := putAttr st.topAttrs "selector_block"
    branches := []
    arcs := []
    disjunction := [] }

/-- `create_unit_disjunct` (lines 202-216): for `idx` in `RangeSet(n)` create
`selector_block.unit_disjunct_<idx> = Disjunct()`, then create
`selector_block.unit_disjunction = Disjunction(expr=[those disjuncts])`.
A fresh Pyomo `Disjunct` starts with its built-in members (its indicator
variables), passed here as `builtins`; the `Disjunction` records the listed
disjuncts. -/
def create_unit_disjunct (builtins : List String) (n : Nat) (st : ModelState) :
    ModelState :=
  { st with
    branches := (rangeSet n).map (fun i => (i, builtins))
    disjunction := rangeSet n }

/-- Loop body sequence of `add_units_to_disjunct` (lines 218-227): for the
`c`-th candidate (1-based), `getattr` branch `c`, delete the unit from its
current parent block (always succeeds — the unit is a member there), and
`add_component` it under its `local_name` on branch `c`.  The duplicate-name
check is against the branch's existing members (the fresh Disjunct
built-ins). -/
def addUnitsLoop (n : Nat) : Nat → List String → ModelState → Except PyError ModelState
  | _, [], st => .ok st
  | c, u :: rest, st =>
    match getDisjunct n c with
    | .error e => .error e
    | .ok _ =>
      match addNamed st c u with
      | .error e => .error e
      | .ok st' => addUnitsLoop n (c + 1) rest st'

/-- `add_units_to_disjunct` (lines 218-227). -/
def add_units_to_disjunct (units : List String) (st : ModelState) :
    Except PyError ModelState :=
  addUnitsLoop units.length 1 units st

/-- `create_inlet_list` (lines 229-240): `["inlet_1", ..., "inlet_<m>"]`
where `m = len(config.unit_disjunct_inlet)`. -/
def create_inlet_list (m : Nat) : List String :=
  (rangeSet m).map (portName true)

/-- `create_outlet_list` (lines 242-253). -/
def create_outlet_list (m : Nat) : List String :=
  (rangeSet m).map (portName false)

/-- `add_port_state_block` (lines 255-279): reads
`unit_type.config.property_package_args` — an `AttributeError` when no
template was supplied — then builds one state block per listed port name and
assigns it to `self.<p>_state` (implicit replacement on rebuild).  The state
blocks themselves are opaque; only the attribute names are tracked. -/
def add_port_state_block (template : Bool) (portTypeList : List String)
    (st : ModelState) : Except PyError ModelState :=
  if template = false then .error (.attributeError "config")
  else .ok { st with topAttrs := putAttrs st.topAttrs (portTypeList.map (· ++ "_state")) }

/-- `add_port_objects` (lines 281-296), which calls the base-class
`add_port` for each name when `construct_ports` is true.  Modelled from the
spec: `add_port` (defined in `idaes.core.base.unit_model`, not under `src/`)
"exposes each SelectorPort as a named external connector using the naming
convention `inlet_<k>` / `outlet_<k>`"; the connector is assigned as a
top-level attribute (implicit replacement on rebuild). -/
def add_port_objects (cp : Bool) (portList : List String) (st : ModelState) :
    ModelState :=
  if cp = true then { st with topAttrs := putAttrs st.topAttrs portList } else st

/-! `arc_selector_inlet_to_unit` (lines 325-347) and
`arc_unit_outlet_to_selector` (lines 348-370) are textually symmetric — the
spec calls them "inlet and outlet, symmetric algorithm" — differing only in
the arc name stem, the port direction, and which Arc endpoint is the
selector port.  They are modelled as the two instantiations (by `isIn`) of
one parametric function family. -/

/-- The Arc built for branch `c` from list element `p` at external index
`k`: inlet direction is `Arc(source=inlet_<k>, destination=p)` named
`inlet_to_unit_arc_<c>` (lines 334-337, 344-347); outlet direction is
`Arc(source=p, destination=outlet_<k>)` named `unit_to_outlet_arc_<c>`
(lines 357-360, 367-370). -/
def wireArc (isIn : Bool) (k c p : Nat) : ArcRec :=
  if isIn then ⟨c, inletArcName c, .selIn k, .uPort p⟩
  else ⟨c, outletArcName c, .uPort p, .selOut k⟩

/-- The deterministic arc component name used for branch `c`. -/
def wireName (isIn : Bool) (c : Nat) : String :=
  if isIn then inletArcName c else outletArcName c

/-- Inner loop of the fan-out (`len > 1`) case (lines 328-338 / 351-361):
`dsj_counter` starts at 1 (here at `c` so the loop can be reasoned about by
induction); for each listed connection point, `getattr` the branch numbered
`dsj_counter`, `getattr` the selector port, and `add_component` the Arc
named for `dsj_counter` on that branch, then increment the counter. -/
def wireFanoutLoop (n m : Nat) (cp isIn : Bool) (k : Nat) :
    Nat → List Nat → ModelState → Except PyError ModelState
  | _, [], st => .ok st
  | c, p :: rest, st =>
    match getDisjunct n c with
    | .error e => .error e
    | .ok _ =>
      match getPort m cp isIn k with
      | .error e => .error e
      | .ok _ =>
        match addArc st (wireArc isIn k c p) with
        | .error e => .error e
        | .ok st' => wireFanoutLoop n m cp isIn k (c + 1) rest st'

/-- The `else` case (lines 340-347 / 363-370), taken when the list has
length ≤ 1: `getattr` branch `k`, `getattr` the selector port `k`, then
build the Arc — evaluating `lst[0]`, an `IndexError` on an empty list — and
`add_component` it under the name for `k` on branch `k`. -/
def wireSingleStep (n m : Nat) (cp isIn : Bool) (k : Nat) (l : List Nat)
    (st : ModelState) : Except PyError ModelState :=
  match getDisjunct n k with
  | .error e => .error e
  | .ok _ =>
    match getPort m cp isIn k with
    | .error e => .error e
    | .ok _ =>
      match l.head? with
      | none => .error .indexError
      | some p => addArc st (wireArc isIn k k p)

/-- One iteration of the `for idx, lst in config....items()` loop
(lines 326-347 / 349-370). -/
def wireEntryStep (n m : Nat) (cp isIn : Bool) (e : Nat × List Nat)
    (st : ModelState) : Except PyError ModelState :=
  if 1 < e.2.length then wireFanoutLoop n m cp isIn e.1 1 e.2 st
  else wireSingleStep n m cp isIn e.1 e.2 st

/-- The whole wiring method: iterate the configured mapping in insertion
order, propagating the first raised exception. -/
def wireRun (n m : Nat) (cp isIn : Bool) :
    List (Nat × List Nat) → ModelState → Except PyError ModelState
  | [], st => .ok st
  | e :: rest, st =>
    match wireEntryStep n m cp isIn e st with
    | .error err => .error err
    | .ok st' => wireRun n m cp isIn rest st'

/-- `arc_selector_inlet_to_unit` (lines 325-347). -/
def arc_selector_inlet_to_unit (n m : Nat) (cp : Bool) :
    List (Nat × List Nat) → ModelState → Except PyError ModelState :=
  wireRun n m cp true

/-- `arc_unit_outlet_to_selector` (lines 348-370). -/
def arc_unit_outlet_to_selector (n m : Nat) (cp : Bool) :
    List (Nat × List Nat) → ModelState → Except PyError ModelState :=
  wireRun n m cp false

/-- `build` (lines 163-200): the exact call sequence of the source method.
`TransformationFactory("network.expand_arcs").apply_to(self)` is the
delegated external expansion capability; it turns each declared Arc into
equality constraints and adds no component tracked by this model, so it is
the identity here. -/
def buildOn (builtins : List String) (st0 : ModelState) (cfg : SelConfig) :
    Except PyError ModelState :=
  let n := cfg.unit_disjunct.length
  let mIn := cfg.unit_disjunct_inlet.length
  let mOut := cfg.unit_disjunct_outlet.length
  let st := create_unit_disjunct builtins n (assignSelectorBlock st0)
  match add_units_to_disjunct cfg.unit_disjunct st with
  | .error e => .error e
  | .ok st =>
    match add_port_state_block cfg.unit_source (create_inlet_list mIn) st with
    | .error e => .error e
    | .ok st =>
      match add_port_state_block cfg.unit_sink (create_outlet_list mOut) st with
      | .error e => .error e
      | .ok st =>
        let st := add_port_objects cfg.construct_ports (create_inlet_list mIn) st
        let st := add_port_objects cfg.construct_ports (create_outlet_list mOut) st
        match arc_selector_inlet_to_unit n mIn cfg.construct_ports
            cfg.unit_disjunct_inlet st with
        | .error e => .error e
        | .ok st =>
          arc_unit_outlet_to_selector n mOut cfg.construct_ports
            cfg.unit_disjunct_outlet st

/-- `build` on a freshly constructed model object. -/
def buildModel (builtins : List String) (cfg : SelConfig) :
    Except PyError ModelState :=
  buildOn builtins emptyModel cfg

/-! ## The spec's description of the created edges (§3 "Fan-out/fan-in
mapping", §4.3): the i-th element of a fan-out list goes into branch i
starting at branch 1; a length-1 list goes into the branch whose index
equals the port index.  These definitions follow the spec's words and are
compared with the code's wiring functions. -/

/-- Edges of a fan-out list, the element at counter `c` placed inside
branch `c`. -/
def wireFanoutEdges (isIn : Bool) (k : Nat) : Nat → List Nat → List ArcRec
  | _, [] => []
  | c, p :: rest => wireArc isIn k c p :: wireFanoutEdges isIn k (c + 1) rest

/-- Edges the spec assigns to one mapping entry: a list of length > 1 fans
out from branch 1; a list of length 1 yields the single edge inside the
branch whose index equals the external port index. -/
def wireEntryEdges (isIn : Bool) (k : Nat) (l : List Nat) : List ArcRec :=
  if 1 < l.length then wireFanoutEdges isIn k 1 l
  else
    match l with
    | [p] => [wireArc isIn k k p]
    | _ => []

/-- Edges the spec assigns to a whole mapping, in insertion order. -/
def wireEdgesSpec (isIn : Bool) (entries : List (Nat × List Nat)) : List ArcRec :=
  entries.flatMap (fun e => wireEntryEdges isIn e.1 e.2)

/-- The spec's inlet edges (§4.3, inlet direction). -/
def inletEdgesSpec : List (Nat × List Nat) → List ArcRec := wireEdgesSpec true

/-- The spec's outlet edges (§4.3, outlet direction). -/
def outletEdgesSpec : List (Nat × List Nat) → List ArcRec := wireEdgesSpec false

/-! ## Disjunction semantics

External contract of the Pyomo GDP `Disjunction` (spec §2, §3): in any
feasible configuration, exactly one of the referenced disjuncts is active
(the default exclusive-or disjunction over the activation indicators). -/

/-- Feasibility of an activation assignment under the exactly-one
constraint of a `Disjunction` over the branch indices `refs`. -/
def disjunctionFeasible (refs : List Nat) (active : Nat → Bool) : Prop :=
  refs.countP active = 1

/-- "Exactly one of branches `1..n` is active". -/
def ExactlyOneActive (n : Nat) (active : Nat → Bool) : Prop :=
  ∃! i, i ∈ rangeSet n ∧ active i = true

instance (refs : List Nat) (active : Nat → Bool) :
    Decidable (disjunctionFeasible refs active) := by
  unfold disjunctionFeasible; infer_instance

/-! ## Initialization model

`initialize` (lines 304-323) walks `config.unit_disjunct` with 1-based
counter `idx`, and for each branch: `getattr` the disjunct, `getattr` the
unit block, `getattr` the inlet arc `inlet_to_unit_arc_<idx>`, call
`propagate_state` on it, call the unit's own `initialize(**kwargs)`, and
`getattr` the outlet arc `unit_to_outlet_arc_<idx>` (which is only printed —
no propagation call).  The value-level state is split into the selector's
inlet/outlet port state containers and each branch's variables. -/

/-- The state variables living inside one branch: the candidate's inlet
connection-point variables (the destination of the branch's inlet edge) and
everything else the candidate owns. -/
structure BranchState where
  inletVars : Nat → Int
  internalVars : Nat → Int

/-- The value state relevant to `initialize`: each selector inlet/outlet
port's state container and each branch's variables. -/
structure SysState where
  selIn : Nat → Nat → Int
  selOut : Nat → Nat → Int
  branch : Nat → BranchState

/-- The environment `initialize` runs in: how many candidates there are,
which attributes the earlier build stages actually created, and each
candidate's own `initialize` behaviour.  `initFun b kw s` returns the
branch-`b` state the candidate leaves behind; `.error` means it raised
`InitializationError` (the carried state is whatever partial mutation it
performed before raising — the candidate only ever touches its own
branch). -/
structure InitEnv (κ : Type) where
  nUnits : Nat
  disjunctPresent : Nat → Bool
  unitLocalName : Nat → String
  unitPresent : Nat → Bool
  inletArcSrc : Nat → Option Nat
  outletArcPresent : Nat → Bool
  initFun : Nat → κ → BranchState → Except BranchState BranchState

/-- Modelled from the spec: `propagate_state`
(`idaes.core.util.initialization`, not under `src/`) performs "a
one-directional copy of initial-guess values" from the arc's source to its
destination — here from selector port `inlet_<k>`'s state into branch `b`'s
candidate inlet variables. -/
def propagateInlet (σ : SysState) (b k : Nat) : SysState :=
  { σ with
    branch := fun b' =>
      if b' = b then ⟨σ.selIn k, (σ.branch b).internalVars⟩ else σ.branch b' }

/-- Overwrite branch `b`'s state (the effect of the candidate's own
`initialize`, which mutates only members of its branch). -/
def setBranch (σ : SysState) (b : Nat) (s : BranchState) : SysState :=
  { σ with branch := fun b' => if b' = b then s else σ.branch b' }

/-- The loop body of `initialize` over the remaining 1-based branch indices.
Result: final value state, the trace of candidate-`initialize` invocations
(branch index, forwarded kwargs) in order, and the exception that aborted
the loop (`none` when it ran to completion). -/
def initLoop {κ : Type} (env : InitEnv κ) (kw : κ) :
    List Nat → SysState → List (Nat × κ) →
    SysState × List (Nat × κ) × Option PyError
  | [], σ, tr => (σ, tr, none)
  | b :: rest, σ, tr =>
    if env.disjunctPresent b = false then
      (σ, tr, some (.attributeError (unitDisjunctName b)))
    else if env.unitPresent b = false then
      (σ, tr, some (.attributeError (env.unitLocalName b)))
    else
      match env.inletArcSrc b with
      | none => (σ, tr, some (.attributeError (inletArcName b)))
      | some k =>
        let σ₁ := propagateInlet σ b k
        match env.initFun b kw ((σ₁).branch b) with
        | .error s => (setBranch σ₁ b s, tr ++ [(b, kw)], some .initializationError)
        | .ok s =>
          let σ₂ := setBranch σ₁ b s
          if env.outletArcPresent b = false then
            (σ₂, tr ++ [(b, kw)], some (.attributeError (outletArcName b)))
          else initLoop env kw rest σ₂ (tr ++ [(b, kw)])

/-- `initialize` (lines 304-323). -/
def initializeModel {κ : Type} (env : InitEnv κ) (kw : κ) (σ : SysState) :
    SysState × List (Nat × κ) × Option PyError :=
  initLoop env kw (rangeSet env.nUnits) σ []

/-- The branch-`b` state the candidate's `initialize` sees: the inlet
variables freshly copied from the selector port feeding branch `b`, the
internal variables untouched. -/
def seededBranch {κ : Type} (env : InitEnv κ) (σ : SysState) (b : Nat) :
    BranchState :=
  ⟨σ.selIn ((env.inletArcSrc b).getD 0), (σ.branch b).internalVars⟩

/-- The branch-`b` state the candidate's `initialize` leaves behind
(whether it succeeds or raises). -/
def initOutcome {κ : Type} (env : InitEnv κ) (kw : κ) (σ : SysState) (b : Nat) :
    BranchState :=
  match env.initFun b kw (seededBranch env σ b) with
  | .ok s => s
  | .error s => s

/-- Whether branch `b`'s candidate raises `InitializationError` when run
from the initial state `σ`. -/
def failsAt {κ : Type} (env : InitEnv κ) (kw : κ) (σ : SysState) (b : Nat) :
    Bool :=
  match env.initFun b kw (seededBranch env σ b) with
  | .ok _ => false
  | .error _ => true

/-- The branch indices whose candidates get initialized: ascending order,
cut just after the first failing one. -/
def cutAfterFail {κ : Type} (env : InitEnv κ) (kw : κ) (σ : SysState) :
    List Nat → List Nat
  | [] => []
  | b :: rest =>
    if failsAt env kw σ b then [b] else b :: cutAfterFail env kw σ rest

/-- Whether a call returned normally. -/
def isOkB {α : Type} : Except PyError α → Bool
  | .ok _ => true
  | .error _ => false

/-- Whether a call raised the duplicate-component error. -/
def isDupB {α : Type} : Except PyError α → Bool
  | .error (.duplicateComponent _ _) => true
  | _ => false

/-- The exception classes the modelled code can actually surface: they all
originate in the component framework or Python itself, never in the IDAES
exception taxonomy the spec prescribes. -/
def frameworkErrorB : PyError → Bool
  | .attributeError _ => true
  | .duplicateComponent _ _ => true
  | .indexError => true
  | _ => false

/-! ## Helper lemmas: branch maps, attribute sets, index ranges -/

theorem getComps_set_same (bs : List (Nat × List String)) (b : Nat)
    (v : List String) : getComps (setComps bs b v) b = v := by
  induction bs with
  | nil => simp [setComps, getComps]
  | cons e rest ih =>
    by_cases h : e.1 = b
    · simp [setComps, h, getComps]
    · simp [setComps, h, getComps, ih]

theorem getComps_set_other {b' b : Nat} (h : b' ≠ b)
    (bs : List (Nat × List String)) (v : List String) :
    getComps (setComps bs b v) b' = getComps bs b' := by
  induction bs with
  | nil =>
    simp only [setComps, getComps]
    rw [if_neg (fun hb => h hb.symm)]
  | cons e rest ih =>
    by_cases he : e.1 = b
    · subst he
      simp only [setComps, if_pos rfl, getComps]
      rw [if_neg (fun hb => h hb.symm), if_neg (fun hb => h hb.symm)]
    · simp only [setComps, if_neg he, getComps, ih]

theorem keys_set_of_mem {bs : List (Nat × List String)} {b : Nat}
    (h : b ∈ bs.map Prod.fst) (v : List String) :
    (setComps bs b v).map Prod.fst = bs.map Prod.fst := by
  induction bs with
  | nil => simp at h
  | cons e rest ih =>
    by_cases he : e.1 = b
    · simp [setComps, he]
    · have hb : b ∈ rest.map Prod.fst := by
        rcases List.mem_map.mp h with ⟨x, hx, hx1⟩
        rcases List.mem_cons.mp hx with rfl | hx'
        · exact absurd hx1 he
        · exact List.mem_map.mpr ⟨x, hx', hx1⟩
      simp [setComps, he, ih hb]

theorem putAttr_of_mem {l : List String} {n : String} (h : n ∈ l) :
    putAttr l n = l := by simp [putAttr, h]

theorem mem_putAttr_self (l : List String) (n : String) : n ∈ putAttr l n := by
  unfold putAttr
  split
  · assumption
  · simp

theorem mem_putAttr_of_mem {l : List String} {x : String} (h : x ∈ l)
    (n : String) : x ∈ putAttr l n := by
  unfold putAttr
  split
  · exact h
  · simp [h]

theorem putAttrs_of_subset :
    ∀ {ns l : List String}, (∀ x ∈ ns, x ∈ l) → putAttrs l ns = l := by
  intro ns
  induction ns with
  | nil => intro l _; rfl
  | cons n rest ih =>
    intro l h
    have h1 : n ∈ l := h n (List.mem_cons_self n rest)
    show putAttrs (putAttr l n) rest = l
    rw [putAttr_of_mem h1]
    exact ih (fun x hx => h x (List.mem_cons_of_mem n hx))

theorem mem_putAttrs_left {l : List String} {x : String} (h : x ∈ l)
    (ns : List String) : x ∈ putAttrs l ns := by
  induction ns generalizing l with
  | nil => exact h
  | cons n rest ih => exact ih (mem_putAttr_of_mem h n)

theorem mem_putAttrs_right {ns : List String} {x : String} (h : x ∈ ns)
    (l : List String) : x ∈ putAttrs l ns := by
  induction ns generalizing l with
  | nil => simp at h
  | cons n rest ih =>
    rcases List.mem_cons.mp h with rfl | h'
    · exact mem_putAttrs_left (mem_putAttr_self l x) rest
    · exact ih h' (putAttr l n)

theorem nodup_putAttr {l : List String} (h : l.Nodup) (n : String) :
    (putAttr l n).Nodup := by
  unfold putAttr
  split
  · exact h
  · next hn => simpa [List.nodup_append] using ⟨h, hn⟩

theorem nodup_putAttrs {ns l : List String} (h : l.Nodup) :
    (putAttrs l ns).Nodup := by
  induction ns generalizing l with
  | nil => exact h
  | cons n rest ih => exact ih (nodup_putAttr h n)

theorem mem_rangeSet {n i : Nat} : i ∈ rangeSet n ↔ 1 ≤ i ∧ i ≤ n := by
  unfold rangeSet
  rw [List.mem_range'_1]
  omega

theorem rangeSet_nodup (n : Nat) : (rangeSet n).Nodup := by
  unfold rangeSet
  exact List.nodup_range' 1 n

theorem rangeSet_succ (n : Nat) : rangeSet (n + 1) = 1 :: List.range' 2 n := by
  unfold rangeSet
  rw [List.range'_succ]

/-! ## Helper lemmas: primitive operations -/

theorem getDisjunct_ok_iff {n c : Nat} :
    getDisjunct n c = .ok () ↔ 1 ≤ c ∧ c ≤ n := by
  unfold getDisjunct
  split <;> simp_all

theorem getDisjunct_of_le {n c : Nat} (h1 : 1 ≤ c) (h2 : c ≤ n) :
    getDisjunct n c = .ok () := getDisjunct_ok_iff.mpr ⟨h1, h2⟩

theorem getDisjunct_err {n c : Nat} (h : ¬(1 ≤ c ∧ c ≤ n)) :
    getDisjunct n c = .error (.attributeError (unitDisjunctName c)) := by
  unfold getDisjunct
  rw [if_neg h]

theorem getPort_ok_of {m k : Nat} {cp : Bool} (isIn : Bool) (hcp : cp = true)
    (h1 : 1 ≤ k) (h2 : k ≤ m) : getPort m cp isIn k = .ok () := by
  unfold getPort
  rw [if_pos ⟨hcp, h1, h2⟩]

theorem wireArc_branch (isIn : Bool) (k c p : Nat) :
    (wireArc isIn k c p).branch = c := by cases isIn <;> rfl

theorem wireArc_name (isIn : Bool) (k c p : Nat) :
    (wireArc isIn k c p).name = wireName isIn c := by cases isIn <;> rfl

theorem addArc_ok_elim {st : ModelState} {a : ArcRec} {st' : ModelState}
    (h : addArc st a = .ok st') :
    a.name ∉ getComps st.branches a.branch ∧
    st'.branches =
      setComps st.branches a.branch (getComps st.branches a.branch ++ [a.name]) ∧
    st'.arcs = st.arcs ++ [a] ∧ st'.topAttrs = st.topAttrs ∧
    st'.disjunction = st.disjunction := by
  unfold addArc at h
  split at h
  · simp at h
  · next hn =>
    cases h
    exact ⟨hn, rfl, rfl, rfl, rfl⟩

theorem addArc_err_of_mem {st : ModelState} {a : ArcRec}
    (h : a.name ∈ getComps st.branches a.branch) :
    addArc st a = .error (.duplicateComponent a.branch a.name) := by
  unfold addArc
  rw [if_pos h]

theorem addArc_ok_of {st : ModelState} {a : ArcRec}
    (h : a.name ∉ getComps st.branches a.branch) :
    addArc st a = .ok { st with
      branches := setComps st.branches a.branch (getComps st.branches a.branch ++ [a.name])
      arcs := st.arcs ++ [a] } := by
  unfold addArc
  rw [if_neg h]

theorem addNamed_ok_elim {st : ModelState} {b : Nat} {nm : String}
    {st' : ModelState} (h : addNamed st b nm = .ok st') :
    nm ∉ getComps st.branches b ∧
    st'.branches = setComps st.branches b (getComps st.branches b ++ [nm]) ∧
    st'.arcs = st.arcs ∧ st'.topAttrs = st.topAttrs ∧
    st'.disjunction = st.disjunction := by
  unfold addNamed at h
  split at h
  · simp at h
  · next hn =>
    cases h
    exact ⟨hn, rfl, rfl, rfl, rfl⟩

theorem addNamed_err_of_mem {st : ModelState} {b : Nat} {nm : String}
    (h : nm ∈ getComps st.branches b) :
    addNamed st b nm = .error (.duplicateComponent b nm) := by
  unfold addNamed
  rw [if_pos h]

theorem getComps_mono_addArc {st : ModelState} {a : ArcRec} {st' : ModelState}
    (h : addArc st a = .ok st') {b : Nat} {x : String}
    (hx : x ∈ getComps st.branches b) : x ∈ getComps st'.branches b := by
  obtain ⟨_, hb, _, _, _⟩ := addArc_ok_elim h
  rw [hb]
  by_cases hba : b = a.branch
  · subst hba
    rw [getComps_set_same]
    exact List.mem_append_left _ hx
  · rw [getComps_set_other hba]
    exact hx

theorem getComps_mono_addNamed {st : ModelState} {bn : Nat} {nm : String}
    {st' : ModelState} (h : addNamed st bn nm = .ok st') {b : Nat} {x : String}
    (hx : x ∈ getComps st.branches b) : x ∈ getComps st'.branches b := by
  obtain ⟨_, hb, _, _, _⟩ := addNamed_ok_elim h
  rw [hb]
  by_cases hba : b = bn
  · subst hba
    rw [getComps_set_same]
    exact List.mem_append_left _ hx
  · rw [getComps_set_other hba]
    exact hx

/-! ## Helper lemmas: the wiring loops -/

theorem wireFanoutLoop_ok_elim {n m : Nat} {cp isIn : Bool} {k : Nat}
    {l : List Nat} :
    ∀ {c : Nat} {st st' : ModelState},
      wireFanoutLoop n m cp isIn k c l st = .ok st' →
      st'.arcs = st.arcs ++ wireFanoutEdges isIn k c l ∧
      st'.topAttrs = st.topAttrs ∧
      st'.disjunction = st.disjunction ∧
      (∀ b x, x ∈ getComps st.branches b → x ∈ getComps st'.branches b) ∧
      (st.branches.map Prod.fst = rangeSet n →
        st'.branches.map Prod.fst = rangeSet n) := by
  induction l with
  | nil =>
    intro c st st' h
    simp only [wireFanoutLoop] at h
    cases h
    exact ⟨by simp [wireFanoutEdges], rfl, rfl, fun _ _ hx => hx, fun hh => hh⟩
  | cons p rest ih =>
    intro c st st' h
    simp only [wireFanoutLoop] at h
    cases hd : getDisjunct n c with
    | error e => rw [hd] at h; simp at h
    | ok u =>
      cases u
      rw [hd] at h
      cases hp : getPort m cp isIn k with
      | error e => rw [hp] at h; simp at h
      | ok u2 =>
        cases u2
        rw [hp] at h
        cases ha : addArc st (wireArc isIn k c p) with
        | error e => rw [ha] at h; simp at h
        | ok st1 =>
          rw [ha] at h
          obtain ⟨harc, htop, hdis, hmono, hkeys⟩ := ih h
          obtain ⟨_, hbr1, harcs1, htop1, hdis1⟩ := addArc_ok_elim ha
          refine ⟨?_, ?_, ?_, ?_, ?_⟩
          · rw [harc, harcs1, wireFanoutEdges]
            simp
          · rw [htop, htop1]
          · rw [hdis, hdis1]
          · intro b x hx
            exact hmono b x (getComps_mono_addArc ha hx)
          · intro hk
            apply hkeys
            rw [hbr1, wireArc_branch]
            have hc : c ∈ st.branches.map Prod.fst := by
              rw [hk]
              exact mem_rangeSet.mpr (getDisjunct_ok_iff.mp hd)
            rw [keys_set_of_mem hc, hk]

theorem wireSingleStep_ok_elim {n m : Nat} {cp isIn : Bool} {k : Nat}
    {l : List Nat} {st st' : ModelState}
    (h : wireSingleStep n m cp isIn k l st = .ok st') :
    (∃ p, l.head? = some p ∧ st'.arcs = st.arcs ++ [wireArc isIn k k p]) ∧
    1 ≤ k ∧ k ≤ n ∧
    st'.topAttrs = st.topAttrs ∧
    st'.disjunction = st.disjunction ∧
    (∀ b x, x ∈ getComps st.branches b → x ∈ getComps st'.branches b) ∧
    (st.branches.map Prod.fst = rangeSet n →
      st'.branches.map Prod.fst = rangeSet n) := by
  unfold wireSingleStep at h
  cases hd : getDisjunct n k with
  | error e => rw [hd] at h; simp at h
  | ok u =>
    cases u
    rw [hd] at h
    cases hp : getPort m cp isIn k with
    | error e => rw [hp] at h; simp at h
    | ok u2 =>
      cases u2
      rw [hp] at h
      cases hh : l.head? with
      | none => rw [hh] at h; simp at h
      | some p =>
        rw [hh] at h
        obtain ⟨_, hbr1, harcs1, htop1, hdis1⟩ := addArc_ok_elim h
        obtain ⟨hk1, hk2⟩ := getDisjunct_ok_iff.mp hd
        refine ⟨⟨p, rfl, harcs1⟩, hk1, hk2, htop1, hdis1, ?_, ?_⟩
        · intro b x hx
          exact getComps_mono_addArc h hx
        · intro hk
          rw [hbr1, wireArc_branch]
          have hc : k ∈ st.branches.map Prod.fst := by
            rw [hk]
            exact mem_rangeSet.mpr ⟨hk1, hk2⟩
          rw [keys_set_of_mem hc, hk]

theorem wireEntryEdges_of_fanout {isIn : Bool} {k : Nat} {l : List Nat}
    (h : 1 < l.length) : wireEntryEdges isIn k l = wireFanoutEdges isIn k 1 l := by
  unfold wireEntryEdges
  rw [if_pos h]

theorem wireEntryEdges_single (isIn : Bool) (k p : Nat) :
    wireEntryEdges isIn k [p] = [wireArc isIn k k p] := rfl

theorem wireEntryStep_ok_elim {n m : Nat} {cp isIn : Bool}
    {e : Nat × List Nat} {st st' : ModelState}
    (h : wireEntryStep n m cp isIn e st = .ok st') :
    st'.arcs = st.arcs ++ wireEntryEdges isIn e.1 e.2 ∧
    st'.topAttrs = st.topAttrs ∧
    st'.disjunction = st.disjunction ∧
    (∀ b x, x ∈ getComps st.branches b → x ∈ getComps st'.branches b) ∧
    (st.branches.map Prod.fst = rangeSet n →
      st'.branches.map Prod.fst = rangeSet n) := by
  unfold wireEntryStep at h
  by_cases hl : 1 < e.2.length
  · rw [if_pos hl] at h
    obtain ⟨harc, htop, hdis, hmono, hkeys⟩ := wireFanoutLoop_ok_elim h
    exact ⟨by rw [harc, wireEntryEdges_of_fanout hl], htop, hdis, hmono, hkeys⟩
  · rw [if_neg hl] at h
    obtain ⟨⟨p, hh, harc⟩, _, _, htop, hdis, hmono, hkeys⟩ := wireSingleStep_ok_elim h
    refine ⟨?_, htop, hdis, hmono, hkeys⟩
    have hl2 : e.2 = [p] := by
      cases hl2 : e.2 with
      | nil => rw [hl2] at hh; simp at hh
      | cons q t =>
        rw [hl2] at hh
        simp only [List.head?_cons, Option.some.injEq] at hh
        subst hh
        cases t with
        | nil => rfl
        | cons r t2 =>
          exfalso
          apply hl
          rw [hl2]
          simp
    rw [harc, hl2, wireEntryEdges_single]

theorem wireRun_ok_elim {n m : Nat} {cp isIn : Bool}
    {entries : List (Nat × List Nat)} :
    ∀ {st st' : ModelState},
      wireRun n m cp isIn entries st = .ok st' →
      st'.arcs = st.arcs ++ wireEdgesSpec isIn entries ∧
      st'.topAttrs = st.topAttrs ∧
      st'.disjunction = st.disjunction ∧
      (∀ b x, x ∈ getComps st.branches b → x ∈ getComps st'.branches b) ∧
      (st.branches.map Prod.fst = rangeSet n →
        st'.branches.map Prod.fst = rangeSet n) := by
  induction entries with
  | nil =>
    intro st st' h
    simp only [wireRun] at h
    cases h
    exact ⟨by simp [wireEdgesSpec], rfl, rfl, fun _ _ hx => hx, fun hh => hh⟩
  | cons e rest ih =>
    intro st st' h
    simp only [wireRun] at h
    cases he : wireEntryStep n m cp isIn e st with
    | error err => rw [he] at h; simp at h
    | ok st1 =>
      rw [he] at h
      obtain ⟨harc, htop, hdis, hmono, hkeys⟩ := ih h
      obtain ⟨harc1, htop1, hdis1, hmono1, hkeys1⟩ := wireEntryStep_ok_elim he
      refine ⟨?_, ?_, ?_, ?_, ?_⟩
      · rw [harc, harc1, wireEdgesSpec]
        simp [wireEdgesSpec]
      · rw [htop, htop1]
      · rw [hdis, hdis1]
      · intro b x hx
        exact hmono b x (hmono1 b x hx)
      · intro hk
        exact hkeys (hkeys1 hk)

theorem addArc_err_elim {st : ModelState} {a : ArcRec} {e : PyError}
    (h : addArc st a = .error e) :
    e = .duplicateComponent a.branch a.name ∧
    a.name ∈ getComps st.branches a.branch := by
  unfold addArc at h
  split at h
  · next hm =>
    cases h
    exact ⟨rfl, hm⟩
  · simp at h

theorem getDisjunct_err_elim {n c : Nat} {e : PyError}
    (h : getDisjunct n c = .error e) :
    e = .attributeError (unitDisjunctName c) ∧ ¬(1 ≤ c ∧ c ≤ n) := by
  unfold getDisjunct at h
  split at h
  · simp at h
  · next hm =>
    cases h
    exact ⟨rfl, hm⟩

theorem getPort_err_elim {m k : Nat} {cp isIn : Bool} {e : PyError}
    (h : getPort m cp isIn k = .error e) :
    e = .attributeError (portName isIn k) := by
  unfold getPort at h
  split at h
  · simp at h
  · cases h
    rfl

theorem addNamed_err_elim {st : ModelState} {b : Nat} {nm : String}
    {e : PyError} (h : addNamed st b nm = .error e) :
    e = .duplicateComponent b nm := by
  unfold addNamed at h
  split at h
  · cases h
    rfl
  · simp at h

/-- Well-formedness of one mapping entry `(k, l)` as the spec demands it:
`k` names an existing selector port and branch, and the list length is
between 1 and the branch count. -/
def entryValid (n m : Nat) (e : Nat × List Nat) : Prop :=
  1 ≤ e.1 ∧ e.1 ≤ m ∧ e.1 ≤ n ∧ 1 ≤ e.2.length ∧ e.2.length ≤ n

instance (n m : Nat) (e : Nat × List Nat) : Decidable (entryValid n m e) := by
  unfold entryValid
  infer_instance

theorem wireFanoutLoop_clean {n m : Nat} {cp isIn : Bool} {k : Nat}
    {l : List Nat} :
    ∀ {c : Nat} {st : ModelState},
      cp = true → 1 ≤ k → k ≤ m → 1 ≤ c → c + l.length ≤ n + 1 →
      (∀ j, c ≤ j → j < c + l.length → wireName isIn j ∉ getComps st.branches j) →
      ∃ st', wireFanoutLoop n m cp isIn k c l st = .ok st' ∧
        st'.arcs = st.arcs ++ wireFanoutEdges isIn k c l ∧
        ∀ b, getComps st'.branches b =
          getComps st.branches b ++
            (if c ≤ b ∧ b < c + l.length then [wireName isIn b] else []) := by
  induction l with
  | nil =>
    intro c st _ _ _ _ _ _
    refine ⟨st, rfl, by simp [wireFanoutEdges], fun b => ?_⟩
    rw [if_neg (by simp only [List.length_nil]; omega)]
    simp
  | cons p rest ih =>
    intro c st hcp hk1 hk2 hc1 hc2 hclean
    have hcn : c ≤ n := by
      simp only [List.length_cons] at hc2
      omega
    have hnotin : (wireArc isIn k c p).name ∉
        getComps st.branches (wireArc isIn k c p).branch := by
      rw [wireArc_branch, wireArc_name]
      exact hclean c le_rfl (by simp only [List.length_cons]; omega)
    have hstep := addArc_ok_of hnotin
    set st1 : ModelState := { st with
      branches := setComps st.branches (wireArc isIn k c p).branch
        (getComps st.branches (wireArc isIn k c p).branch ++ [(wireArc isIn k c p).name])
      arcs := st.arcs ++ [wireArc isIn k c p] } with hst1
    have hcomps1 : ∀ b, getComps st1.branches b =
        getComps st.branches b ++ (if b = c then [wireName isIn c] else []) := by
      intro b
      by_cases hb : b = c
      · subst hb
        rw [hst1]
        simp only [wireArc_branch, wireArc_name]
        rw [getComps_set_same]
        simp
      · rw [hst1]
        simp only [wireArc_branch]
        rw [getComps_set_other hb, if_neg hb]
        simp
    have hclean1 : ∀ j, c + 1 ≤ j → j < (c + 1) + rest.length →
        wireName isIn j ∉ getComps st1.branches j := by
      intro j hj1 hj2
      rw [hcomps1 j, if_neg (by omega)]
      simp only [List.append_nil]
      exact hclean j (by omega) (by simp only [List.length_cons]; omega)
    obtain ⟨st', hrun, harc, hcomps⟩ :=
      @ih (c + 1) st1 hcp hk1 hk2 (by omega)
        (by simp only [List.length_cons] at hc2; omega) hclean1
    refine ⟨st', ?_, ?_, ?_⟩
    · simp only [wireFanoutLoop]
      rw [getDisjunct_of_le hc1 hcn, getPort_ok_of isIn hcp hk1 hk2, hstep]
      exact hrun
    · rw [harc, hst1]
      simp [wireFanoutEdges]
    · intro b
      rw [hcomps b, hcomps1 b]
      by_cases hb : b = c
      · subst hb
        rw [if_pos rfl, if_neg (by omega),
          if_pos (by simp only [List.length_cons]; omega)]
        simp
      · rw [if_neg hb]
        simp only [List.append_nil]
        by_cases hb2 : c + 1 ≤ b ∧ b < c + 1 + rest.length
        · rw [if_pos hb2, if_pos (by simp only [List.length_cons]; omega)]
        · rw [if_neg hb2, if_neg (by simp only [List.length_cons]; omega)]

theorem wireFanoutLoop_overflow {n m : Nat} {cp isIn : Bool} {k : Nat}
    {l : List Nat} :
    ∀ {c : Nat} {st : ModelState},
      cp = true → 1 ≤ k → k ≤ m → 1 ≤ c → c ≤ n + 1 → n + 1 < c + l.length →
      (∀ j, c ≤ j → j ≤ n → wireName isIn j ∉ getComps st.branches j) →
      wireFanoutLoop n m cp isIn k c l st =
        .error (.attributeError (unitDisjunctName (n + 1))) := by
  induction l with
  | nil =>
    intro c st _ _ _ _ hc2 hover _
    exfalso
    simp only [List.length_nil, Nat.add_zero] at hover
    omega
  | cons p rest ih =>
    intro c st hcp hk1 hk2 hc1 hc2 hover hclean
    by_cases hcn : c = n + 1
    · subst hcn
      simp only [wireFanoutLoop]
      rw [getDisjunct_err (by omega)]
    · have hcn' : c ≤ n := by omega
      have hnotin : (wireArc isIn k c p).name ∉
          getComps st.branches (wireArc isIn k c p).branch := by
        rw [wireArc_branch, wireArc_name]
        exact hclean c le_rfl hcn'
      simp only [wireFanoutLoop]
      rw [getDisjunct_of_le hc1 hcn', getPort_ok_of isIn hcp hk1 hk2,
        addArc_ok_of hnotin]
      apply ih hcp hk1 hk2 (by omega) (by omega)
        (by simp only [List.length_cons] at hover; omega)
      intro j hj1 hj2
      simp only
      rw [wireArc_branch, getComps_set_other (by omega)]
      exact hclean j (by omega) hj2

theorem wireFanoutLoop_dup {n m : Nat} {cp isIn : Bool} {k c p : Nat}
    {rest : List Nat} {st : ModelState}
    (hcp : cp = true) (hk1 : 1 ≤ k) (hk2 : k ≤ m) (hc1 : 1 ≤ c) (hc2 : c ≤ n)
    (hocc : wireName isIn c ∈ getComps st.branches c) :
    wireFanoutLoop n m cp isIn k c (p :: rest) st =
      .error (.duplicateComponent c (wireName isIn c)) := by
  simp only [wireFanoutLoop]
  rw [getDisjunct_of_le hc1 hc2, getPort_ok_of isIn hcp hk1 hk2]
  have hmem : (wireArc isIn k c p).name ∈
      getComps st.branches (wireArc isIn k c p).branch := by
    rw [wireArc_branch, wireArc_name]
    exact hocc
  rw [addArc_err_of_mem hmem, wireArc_branch, wireArc_name]

theorem wireFanoutLoop_ok_or_dup {n m : Nat} {cp isIn : Bool} {k : Nat}
    {l : List Nat} :
    ∀ {c : Nat} {st : ModelState},
      cp = true → 1 ≤ k → k ≤ m → 1 ≤ c → c + l.length ≤ n + 1 →
      (∃ st', wireFanoutLoop n m cp isIn k c l st = .ok st') ∨
        isDupB (wireFanoutLoop n m cp isIn k c l st) = true := by
  induction l with
  | nil =>
    intro c st _ _ _ _ _
    exact .inl ⟨st, rfl⟩
  | cons p rest ih =>
    intro c st hcp hk1 hk2 hc1 hc2
    have hcn : c ≤ n := by
      simp only [List.length_cons] at hc2
      omega
    have hrw : wireFanoutLoop n m cp isIn k c (p :: rest) st =
        (match addArc st (wireArc isIn k c p) with
          | .error e => .error e
          | .ok st1 => wireFanoutLoop n m cp isIn k (c + 1) rest st1) := by
      simp only [wireFanoutLoop]
      rw [getDisjunct_of_le hc1 hcn, getPort_ok_of isIn hcp hk1 hk2]
    rw [hrw]
    cases ha : addArc st (wireArc isIn k c p) with
    | error e =>
      obtain ⟨he, _⟩ := addArc_err_elim ha
      subst he
      exact .inr rfl
    | ok st1 =>
      exact ih hcp hk1 hk2 (by omega) (by simp only [List.length_cons] at hc2; omega)

theorem wireSingleStep_ok_or_dup {n m : Nat} {cp isIn : Bool} {k : Nat}
    {l : List Nat} {st : ModelState}
    (hcp : cp = true) (hk1 : 1 ≤ k) (hk2 : k ≤ m) (hk3 : k ≤ n)
    (hl : l ≠ []) :
    (∃ st', wireSingleStep n m cp isIn k l st = .ok st') ∨
      isDupB (wireSingleStep n m cp isIn k l st) = true := by
  cases l with
  | nil => exact absurd rfl hl
  | cons p t =>
    have hrw : wireSingleStep n m cp isIn k (p :: t) st =
        addArc st (wireArc isIn k k p) := by
      unfold wireSingleStep
      rw [getDisjunct_of_le hk1 hk3, getPort_ok_of isIn hcp hk1 hk2]
      rfl
    rw [hrw]
    cases ha : addArc st (wireArc isIn k k p) with
    | error e =>
      obtain ⟨he, _⟩ := addArc_err_elim ha
      subst he
      exact .inr rfl
    | ok st1 => exact .inl ⟨st1, rfl⟩

theorem wireEntryStep_ok_or_dup {n m : Nat} {cp isIn : Bool}
    {e : Nat × List Nat} {st : ModelState}
    (hcp : cp = true) (hv : entryValid n m e) :
    (∃ st', wireEntryStep n m cp isIn e st = .ok st') ∨
      isDupB (wireEntryStep n m cp isIn e st) = true := by
  obtain ⟨hk1, hk2, hk3, hl1, hl2⟩ := hv
  unfold wireEntryStep
  by_cases hl : 1 < e.2.length
  · rw [if_pos hl]
    exact wireFanoutLoop_ok_or_dup hcp hk1 hk2 le_rfl (by omega)
  · rw [if_neg hl]
    exact wireSingleStep_ok_or_dup hcp hk1 hk2 hk3
      (by cases h2 : e.2 <;> simp_all)

theorem wireFanoutLoop_occupies {n m : Nat} {cp isIn : Bool} {k c p : Nat}
    {rest : List Nat} {st st' : ModelState}
    (h : wireFanoutLoop n m cp isIn k c (p :: rest) st = .ok st') :
    wireName isIn c ∈ getComps st'.branches c := by
  simp only [wireFanoutLoop] at h
  cases hd : getDisjunct n c with
  | error e => rw [hd] at h; simp at h
  | ok u =>
    cases u
    rw [hd] at h
    cases hp : getPort m cp isIn k with
    | error e => rw [hp] at h; simp at h
    | ok u2 =>
      cases u2
      rw [hp] at h
      cases ha : addArc st (wireArc isIn k c p) with
      | error e => rw [ha] at h; simp at h
      | ok st1 =>
        rw [ha] at h
        obtain ⟨_, hbr1, _, _, _⟩ := addArc_ok_elim ha
        obtain ⟨_, _, _, hmono, _⟩ := wireFanoutLoop_ok_elim h
        apply hmono
        rw [hbr1, wireArc_branch, wireArc_name, getComps_set_same]
        exact List.mem_append_right _ (List.mem_singleton_self _)

theorem wireEntryStep_occupies {n m : Nat} {cp isIn : Bool}
    {e : Nat × List Nat} {st st' : ModelState} (hl : 1 < e.2.length)
    (h : wireEntryStep n m cp isIn e st = .ok st') :
    wireName isIn 1 ∈ getComps st'.branches 1 := by
  unfold wireEntryStep at h
  rw [if_pos hl] at h
  cases h2 : e.2 with
  | nil => rw [h2] at hl; simp at hl
  | cons p t =>
    rw [h2] at h
    exact wireFanoutLoop_occupies h

theorem wireEntryStep_dup_of_occupied {n m : Nat} {cp isIn : Bool}
    {e : Nat × List Nat} {st : ModelState}
    (hcp : cp = true) (hv : entryValid n m e) (hl : 1 < e.2.length)
    (hocc : wireName isIn 1 ∈ getComps st.branches 1) :
    wireEntryStep n m cp isIn e st =
      .error (.duplicateComponent 1 (wireName isIn 1)) := by
  obtain ⟨hk1, hk2, hk3, hl1, hl2⟩ := hv
  unfold wireEntryStep
  rw [if_pos hl]
  cases h2 : e.2 with
  | nil => rw [h2] at hl; simp at hl
  | cons p t =>
    exact wireFanoutLoop_dup hcp hk1 hk2 le_rfl (by omega) hocc

theorem wireRun_dup_of_occupied {n m : Nat} {cp isIn : Bool}
    {entries : List (Nat × List Nat)} :
    ∀ {st : ModelState}, cp = true → (∀ e ∈ entries, entryValid n m e) →
      1 ≤ entries.countP (fun e => decide (1 < e.2.length)) →
      wireName isIn 1 ∈ getComps st.branches 1 →
      isDupB (wireRun n m cp isIn entries st) = true := by
  induction entries with
  | nil =>
    intro st _ _ hcount _
    simp [List.countP_nil] at hcount
  | cons e rest ih =>
    intro st hcp hv hcount hocc
    have hve : entryValid n m e := hv e (List.mem_cons_self e rest)
    by_cases hl : 1 < e.2.length
    · have hd := wireEntryStep_dup_of_occupied hcp hve hl hocc
      simp only [wireRun]
      rw [hd]
      rfl
    · cases hs : wireEntryStep n m cp isIn e st with
      | error err =>
        rcases @wireEntryStep_ok_or_dup n m cp isIn e st hcp hve with ⟨st', hok⟩ | hdup
        · rw [hs] at hok; simp at hok
        · simp only [wireRun]
          rw [hs]
          rw [hs] at hdup
          exact hdup
      | ok st1 =>
        simp only [wireRun]
        rw [hs]
        obtain ⟨_, _, _, hmono, _⟩ := wireEntryStep_ok_elim hs
        apply ih hcp (fun x hx => hv x (List.mem_cons_of_mem e hx)) ?_
          (hmono 1 _ hocc)
        rw [List.countP_cons] at hcount
        simpa [hl] using hcount

theorem wireRun_two_fanouts_dup {n m : Nat} {cp isIn : Bool}
    {entries : List (Nat × List Nat)} :
    ∀ {st : ModelState}, cp = true → (∀ e ∈ entries, entryValid n m e) →
      2 ≤ entries.countP (fun e => decide (1 < e.2.length)) →
      isDupB (wireRun n m cp isIn entries st) = true := by
  induction entries with
  | nil =>
    intro st _ _ hcount
    simp [List.countP_nil] at hcount
  | cons e rest ih =>
    intro st hcp hv hcount
    have hve : entryValid n m e := hv e (List.mem_cons_self e rest)
    cases hs : wireEntryStep n m cp isIn e st with
    | error err =>
      rcases @wireEntryStep_ok_or_dup n m cp isIn e st hcp hve with ⟨st', hok⟩ | hdup
      · rw [hs] at hok; simp at hok
      · simp only [wireRun]
        rw [hs]
        rw [hs] at hdup
        exact hdup
    | ok st1 =>
      simp only [wireRun]
      rw [hs]
      by_cases hl : 1 < e.2.length
      · have hocc := wireEntryStep_occupies hl hs
        apply wireRun_dup_of_occupied hcp
          (fun x hx => hv x (List.mem_cons_of_mem e hx)) ?_ hocc
        rw [List.countP_cons] at hcount
        have hle : (if decide (1 < e.2.length) = true then 1 else 0) ≤ 1 := by
          split <;> omega
        omega
      · apply ih hcp (fun x hx => hv x (List.mem_cons_of_mem e hx))
        rw [List.countP_cons] at hcount
        simpa [hl] using hcount

/-! ## Helper lemmas: error classification

Every exception the modelled `build` can raise comes from the component
framework or Python (`AttributeError`, duplicate-component `RuntimeError`,
`IndexError`); none is a `ConfigurationError` or `BurntToast` — the source
module contains no `raise` statement at all. -/

theorem wireFanoutLoop_err_frame {n m : Nat} {cp isIn : Bool} {k : Nat}
    {l : List Nat} :
    ∀ {c : Nat} {st : ModelState} {e : PyError},
      wireFanoutLoop n m cp isIn k c l st = .error e →
      frameworkErrorB e = true := by
  induction l with
  | nil =>
    intro c st e h
    simp only [wireFanoutLoop] at h
    simp at h
  | cons p rest ih =>
    intro c st e h
    simp only [wireFanoutLoop] at h
    cases hd : getDisjunct n c with
    | error e2 =>
      rw [hd] at h
      obtain ⟨he, _⟩ := getDisjunct_err_elim hd
      cases h
      rw [he]
      rfl
    | ok u =>
      cases u
      rw [hd] at h
      cases hp : getPort m cp isIn k with
      | error e2 =>
        rw [hp] at h
        have he := getPort_err_elim hp
        cases h
        rw [he]
        rfl
      | ok u2 =>
        cases u2
        rw [hp] at h
        cases ha : addArc st (wireArc isIn k c p) with
        | error e2 =>
          rw [ha] at h
          obtain ⟨he, _⟩ := addArc_err_elim ha
          cases h
          rw [he]
          rfl
        | ok st1 =>
          rw [ha] at h
          exact ih h

theorem wireSingleStep_err_frame {n m : Nat} {cp isIn : Bool} {k : Nat}
    {l : List Nat} {st : ModelState} {e : PyError}
    (h : wireSingleStep n m cp isIn k l st = .error e) :
    frameworkErrorB e = true := by
  unfold wireSingleStep at h
  cases hd : getDisjunct n k with
  | error e2 =>
    rw [hd] at h
    obtain ⟨he, _⟩ := getDisjunct_err_elim hd
    cases h
    rw [he]
    rfl
  | ok u =>
    cases u
    rw [hd] at h
    cases hp : getPort m cp isIn k with
    | error e2 =>
      rw [hp] at h
      have he := getPort_err_elim hp
      cases h
      rw [he]
      rfl
    | ok u2 =>
      cases u2
      rw [hp] at h
      cases hh : l.head? with
      | none =>
        rw [hh] at h
        cases h
        rfl
      | some p =>
        rw [hh] at h
        obtain ⟨he, _⟩ := addArc_err_elim h
        rw [he]
        rfl

theorem wireEntryStep_err_frame {n m : Nat} {cp isIn : Bool}
    {e : Nat × List Nat} {st : ModelState} {err : PyError}
    (h : wireEntryStep n m cp isIn e st = .error err) :
    frameworkErrorB err = true := by
  unfold wireEntryStep at h
  by_cases hl : 1 < e.2.length
  · rw [if_pos hl] at h
    exact wireFanoutLoop_err_frame h
  · rw [if_neg hl] at h
    exact wireSingleStep_err_frame h

theorem wireRun_err_frame {n m : Nat} {cp isIn : Bool}
    {entries : List (Nat × List Nat)} :
    ∀ {st : ModelState} {err : PyError},
      wireRun n m cp isIn entries st = .error err →
      frameworkErrorB err = true := by
  induction entries with
  | nil =>
    intro st err h
    simp only [wireRun] at h
    simp at h
  | cons e rest ih =>
    intro st err h
    simp only [wireRun] at h
    cases hs : wireEntryStep n m cp isIn e st with
    | error e2 =>
      rw [hs] at h
      cases h
      exact wireEntryStep_err_frame hs
    | ok st1 =>
      rw [hs] at h
      exact ih h

theorem addUnitsLoop_err_frame {n : Nat} {us : List String} :
    ∀ {c : Nat} {st : ModelState} {e : PyError},
      addUnitsLoop n c us st = .error e → frameworkErrorB e = true := by
  induction us with
  | nil =>
    intro c st e h
    simp only [addUnitsLoop] at h
    simp at h
  | cons u rest ih =>
    intro c st e h
    simp only [addUnitsLoop] at h
    cases hd : getDisjunct n c with
    | error e2 =>
      rw [hd] at h
      obtain ⟨he, _⟩ := getDisjunct_err_elim hd
      cases h
      rw [he]
      rfl
    | ok uu =>
      cases uu
      rw [hd] at h
      cases ha : addNamed st c u with
      | error e2 =>
        rw [ha] at h
        have he := addNamed_err_elim ha
        cases h
        rw [he]
        rfl
      | ok st1 =>
        rw [ha] at h
        exact ih h

theorem add_port_state_block_err_frame {tmpl : Bool} {l : List String}
    {st : ModelState} {e : PyError}
    (h : add_port_state_block tmpl l st = .error e) :
    frameworkErrorB e = true := by
  unfold add_port_state_block at h
  split at h
  · cases h
    rfl
  · simp at h

/-! ## Helper lemmas: the other build stages -/

theorem addUnitsLoop_ok_elim {n : Nat} {us : List String} :
    ∀ {c : Nat} {st st' : ModelState},
      addUnitsLoop n c us st = .ok st' →
      st'.topAttrs = st.topAttrs ∧ st'.arcs = st.arcs ∧
      st'.disjunction = st.disjunction ∧
      (∀ b x, x ∈ getComps st.branches b → x ∈ getComps st'.branches b) ∧
      (st.branches.map Prod.fst = rangeSet n →
        st'.branches.map Prod.fst = rangeSet n) := by
  induction us with
  | nil =>
    intro c st st' h
    simp only [addUnitsLoop] at h
    cases h
    exact ⟨rfl, rfl, rfl, fun _ _ hx => hx, fun hh => hh⟩
  | cons u rest ih =>
    intro c st st' h
    simp only [addUnitsLoop] at h
    cases hd : getDisjunct n c with
    | error e => rw [hd] at h; simp at h
    | ok uu =>
      cases uu
      rw [hd] at h
      cases ha : addNamed st c u with
      | error e => rw [ha] at h; simp at h
      | ok st1 =>
        rw [ha] at h
        obtain ⟨htop, harc, hdis, hmono, hkeys⟩ := ih h
        obtain ⟨_, hbr1, harc1, htop1, hdis1⟩ := addNamed_ok_elim ha
        refine ⟨by rw [htop, htop1], by rw [harc, harc1],
          by rw [hdis, hdis1], ?_, ?_⟩
        · intro b x hx
          exact hmono b x (getComps_mono_addNamed ha hx)
        · intro hk
          apply hkeys
          rw [hbr1]
          have hc : c ∈ st.branches.map Prod.fst := by
            rw [hk]
            exact mem_rangeSet.mpr (getDisjunct_ok_iff.mp hd)
          rw [keys_set_of_mem hc, hk]

theorem add_port_state_block_ok_elim {tmpl : Bool} {l : List String}
    {st st' : ModelState} (h : add_port_state_block tmpl l st = .ok st') :
    st' = { st with topAttrs := putAttrs st.topAttrs (l.map (· ++ "_state")) } := by
  unfold add_port_state_block at h
  split at h
  · simp at h
  · cases h
    rfl

theorem add_port_objects_eq (cp : Bool) (l : List String) (st : ModelState) :
    add_port_objects cp l st =
      { st with topAttrs := putAttrs st.topAttrs (if cp = true then l else []) } := by
  unfold add_port_objects
  split
  · rfl
  · rfl

/-- The top-level component attribute names `build` assigns after
`selector_block`, in assignment order: the inlet and outlet state blocks,
then (when `construct_ports` is true) the inlet and outlet connectors. -/
def buildAttrNames (cfg : SelConfig) : List String :=
  (create_inlet_list cfg.unit_disjunct_inlet.length).map (· ++ "_state") ++
    ((create_outlet_list cfg.unit_disjunct_outlet.length).map (· ++ "_state") ++
      ((if cfg.construct_ports = true then
          create_inlet_list cfg.unit_disjunct_inlet.length else []) ++
        (if cfg.construct_ports = true then
          create_outlet_list cfg.unit_disjunct_outlet.length else [])))

theorem putAttrs_append (l : List String) (a b : List String) :
    putAttrs l (a ++ b) = putAttrs (putAttrs l a) b := by
  unfold putAttrs
  exact List.foldl_append putAttr l a b

theorem buildOn_ok_elim {builtins : List String} {st : ModelState}
    {cfg : SelConfig} {r : ModelState} (h : buildOn builtins st cfg = .ok r) :
    r.branches.map Prod.fst = rangeSet cfg.unit_disjunct.length ∧
    r.disjunction = rangeSet cfg.unit_disjunct.length ∧
    r.arcs = wireEdgesSpec true cfg.unit_disjunct_inlet ++
      wireEdgesSpec false cfg.unit_disjunct_outlet ∧
    r.topAttrs = putAttrs (putAttr st.topAttrs "selector_block")
      (buildAttrNames cfg) := by
  simp only [buildOn] at h
  set st0 := create_unit_disjunct builtins cfg.unit_disjunct.length
    (assignSelectorBlock st) with hst0
  have hkeys0 : st0.branches.map Prod.fst = rangeSet cfg.unit_disjunct.length := by
    rw [hst0]
    unfold create_unit_disjunct
    have hcomp : (Prod.fst ∘ fun i : Nat => (i, builtins)) = id := rfl
    simp only [List.map_map, hcomp, List.map_id]
  have hdis0 : st0.disjunction = rangeSet cfg.unit_disjunct.length := rfl
  have harcs0 : st0.arcs = [] := rfl
  have htop0 : st0.topAttrs = putAttr st.topAttrs "selector_block" := rfl
  cases h1 : add_units_to_disjunct cfg.unit_disjunct st0 with
  | error e => rw [h1] at h; simp at h
  | ok st1 =>
    rw [h1] at h
    simp only [] at h
    unfold add_units_to_disjunct at h1
    obtain ⟨htop1, harc1, hdis1, _, hkeys1⟩ := addUnitsLoop_ok_elim h1
    cases h2 : add_port_state_block cfg.unit_source
        (create_inlet_list cfg.unit_disjunct_inlet.length) st1 with
    | error e => rw [h2] at h; simp at h
    | ok st2 =>
      rw [h2] at h
      simp only [] at h
      have hst2 := add_port_state_block_ok_elim h2
      cases h3 : add_port_state_block cfg.unit_sink
          (create_outlet_list cfg.unit_disjunct_outlet.length) st2 with
      | error e => rw [h3] at h; simp at h
      | ok st3 =>
        rw [h3] at h
        simp only [] at h
        have hst3 := add_port_state_block_ok_elim h3
        set stp := add_port_objects cfg.construct_ports
          (create_outlet_list cfg.unit_disjunct_outlet.length)
          (add_port_objects cfg.construct_ports
            (create_inlet_list cfg.unit_disjunct_inlet.length) st3) with hstp
        have hstp2 : stp = { st3 with
            topAttrs := putAttrs (putAttrs st3.topAttrs
              (if cfg.construct_ports = true then
                create_inlet_list cfg.unit_disjunct_inlet.length else []))
              (if cfg.construct_ports = true then
                create_outlet_list cfg.unit_disjunct_outlet.length else []) } := by
          rw [hstp, add_port_objects_eq, add_port_objects_eq]
        cases h4 : arc_selector_inlet_to_unit cfg.unit_disjunct.length
            cfg.unit_disjunct_inlet.length cfg.construct_ports
            cfg.unit_disjunct_inlet stp with
        | error e => rw [h4] at h; simp at h
        | ok st4 =>
          rw [h4] at h
          simp only [] at h
          obtain ⟨harc4, htop4, hdis4, _, hkeys4⟩ := wireRun_ok_elim h4
          obtain ⟨harc5, htop5, hdis5, _, hkeys5⟩ := wireRun_ok_elim h
          have hbrp : stp.branches = st1.branches := by
            rw [hstp2, hst3, hst2]
          have harcp : stp.arcs = st1.arcs := by
            rw [hstp2, hst3, hst2]
          have hdisp : stp.disjunction = st1.disjunction := by
            rw [hstp2, hst3, hst2]
          have htopp : stp.topAttrs = putAttrs (putAttrs st1.topAttrs
              ((create_inlet_list cfg.unit_disjunct_inlet.length).map (· ++ "_state") ++
                (create_outlet_list cfg.unit_disjunct_outlet.length).map (· ++ "_state")))
              ((if cfg.construct_ports = true then
                  create_inlet_list cfg.unit_disjunct_inlet.length else []) ++
                (if cfg.construct_ports = true then
                  create_outlet_list cfg.unit_disjunct_outlet.length else [])) := by
            rw [hstp2, hst3, hst2]
            simp only
            rw [putAttrs_append, putAttrs_append]
          refine ⟨?_, ?_, ?_, ?_⟩
          · apply hkeys5
            apply hkeys4
            rw [hbrp]
            exact hkeys1 hkeys0
          · rw [hdis5, hdis4, hdisp, hdis1, hdis0]
          · rw [harc5, harc4, harcp, harc1, harcs0]
            simp
          · rw [htop5, htop4, htopp, htop1, htop0, buildAttrNames]
            simp only [putAttrs_append]

/-! ## Helper lemmas: no silent duplication

`add_component` refuses duplicate names, so the recorded arcs can never
collide on (branch, name); attribute assignment replaces, so the top-level
attribute set stays duplicate-free. -/

/-- The arcs recorded so far are consistent with the branch component
tables: each arc's name is declared on its branch, and no two arcs collide
on (branch, name). -/
def ArcsOk (st : ModelState) : Prop :=
  (∀ a ∈ st.arcs, a.name ∈ getComps st.branches a.branch) ∧
  (st.arcs.map (fun a => (a.branch, a.name))).Nodup

theorem arcsOk_addArc {st : ModelState} {a : ArcRec} {st' : ModelState}
    (h : addArc st a = .ok st') (hst : ArcsOk st) : ArcsOk st' := by
  obtain ⟨hnmem, hbr, harcs, _, _⟩ := addArc_ok_elim h
  obtain ⟨hcont, hnd⟩ := hst
  constructor
  · intro x hx
    rw [harcs] at hx
    rcases List.mem_append.mp hx with hx | hx
    · exact getComps_mono_addArc h (hcont x hx)
    · rw [List.mem_singleton] at hx
      subst hx
      rw [hbr, getComps_set_same]
      exact List.mem_append_right _ (List.mem_singleton_self _)
  · rw [harcs, List.map_append]
    simp only [List.map_cons, List.map_nil]
    rw [List.nodup_append]
    refine ⟨hnd, List.nodup_singleton _, ?_⟩
    intro x hx1 hx2
    rw [List.mem_singleton] at hx2
    subst hx2
    rcases List.mem_map.mp hx1 with ⟨a', ha', heq⟩
    have hmem : a'.name ∈ getComps st.branches a'.branch := hcont a' ha'
    have hb' : a'.branch = a.branch := congrArg Prod.fst heq
    have hn' : a'.name = a.name := congrArg Prod.snd heq
    rw [hb', hn'] at hmem
    exact hnmem hmem

theorem arcsOk_addNamed {st : ModelState} {bn : Nat} {nm : String}
    {st' : ModelState} (h : addNamed st bn nm = .ok st') (hst : ArcsOk st) :
    ArcsOk st' := by
  obtain ⟨_, hbr, harcs, _, _⟩ := addNamed_ok_elim h
  obtain ⟨hcont, hnd⟩ := hst
  constructor
  · intro x hx
    rw [harcs] at hx
    exact getComps_mono_addNamed h (hcont x hx)
  · rw [harcs]
    exact hnd

theorem arcsOk_wireFanoutLoop {n m : Nat} {cp isIn : Bool} {k : Nat}
    {l : List Nat} :
    ∀ {c : Nat} {st st' : ModelState},
      wireFanoutLoop n m cp isIn k c l st = .ok st' → ArcsOk st → ArcsOk st' := by
  induction l with
  | nil =>
    intro c st st' h hst
    simp only [wireFanoutLoop] at h
    cases h
    exact hst
  | cons p rest ih =>
    intro c st st' h hst
    simp only [wireFanoutLoop] at h
    cases hd : getDisjunct n c with
    | error e => rw [hd] at h; simp at h
    | ok u =>
      cases u
      rw [hd] at h
      cases hp : getPort m cp isIn k with
      | error e => rw [hp] at h; simp at h
      | ok u2 =>
        cases u2
        rw [hp] at h
        cases ha : addArc st (wireArc isIn k c p) with
        | error e => rw [ha] at h; simp at h
        | ok st1 =>
          rw [ha] at h
          exact ih h (arcsOk_addArc ha hst)

theorem arcsOk_wireSingleStep {n m : Nat} {cp isIn : Bool} {k : Nat}
    {l : List Nat} {st st' : ModelState}
    (h : wireSingleStep n m cp isIn k l st = .ok st') (hst : ArcsOk st) :
    ArcsOk st' := by
  unfold wireSingleStep at h
  cases hd : getDisjunct n k with
  | error e => rw [hd] at h; simp at h
  | ok u =>
    cases u
    rw [hd] at h
    cases hp : getPort m cp isIn k with
    | error e => rw [hp] at h; simp at h
    | ok u2 =>
      cases u2
      rw [hp] at h
      cases hh : l.head? with
      | none => rw [hh] at h; simp at h
      | some p =>
        rw [hh] at h
        exact arcsOk_addArc h hst

theorem arcsOk_wireEntryStep {n m : Nat} {cp isIn : Bool}
    {e : Nat × List Nat} {st st' : ModelState}
    (h : wireEntryStep n m cp isIn e st = .ok st') (hst : ArcsOk st) :
    ArcsOk st' := by
  unfold wireEntryStep at h
  by_cases hl : 1 < e.2.length
  · rw [if_pos hl] at h
    exact arcsOk_wireFanoutLoop h hst
  · rw [if_neg hl] at h
    exact arcsOk_wireSingleStep h hst

theorem arcsOk_wireRun {n m : Nat} {cp isIn : Bool}
    {entries : List (Nat × List Nat)} :
    ∀ {st st' : ModelState},
      wireRun n m cp isIn entries st = .ok st' → ArcsOk st → ArcsOk st' := by
  induction entries with
  | nil =>
    intro st st' h hst
    simp only [wireRun] at h
    cases h
    exact hst
  | cons e rest ih =>
    intro st st' h hst
    simp only [wireRun] at h
    cases hs : wireEntryStep n m cp isIn e st with
    | error err => rw [hs] at h; simp at h
    | ok st1 =>
      rw [hs] at h
      exact ih h (arcsOk_wireEntryStep hs hst)

theorem arcsOk_addUnitsLoop {n : Nat} {us : List String} :
    ∀ {c : Nat} {st st' : ModelState},
      addUnitsLoop n c us st = .ok st' → ArcsOk st → ArcsOk st' := by
  induction us with
  | nil =>
    intro c st st' h hst
    simp only [addUnitsLoop] at h
    cases h
    exact hst
  | cons u rest ih =>
    intro c st st' h hst
    simp only [addUnitsLoop] at h
    cases hd : getDisjunct n c with
    | error e => rw [hd] at h; simp at h
    | ok uu =>
      cases uu
      rw [hd] at h
      cases ha : addNamed st c u with
      | error e => rw [ha] at h; simp at h
      | ok st1 =>
        rw [ha] at h
        exact ih h (arcsOk_addNamed ha hst)

theorem buildOn_err_frame {builtins : List String} {st : ModelState}
    {cfg : SelConfig} {e : PyError}
    (h : buildOn builtins st cfg = .error e) : frameworkErrorB e = true := by
  simp only [buildOn] at h
  cases h1 : add_units_to_disjunct cfg.unit_disjunct
      (create_unit_disjunct builtins cfg.unit_disjunct.length
        (assignSelectorBlock st)) with
  | error e2 =>
    rw [h1] at h
    simp only [] at h
    cases h
    unfold add_units_to_disjunct at h1
    exact addUnitsLoop_err_frame h1
  | ok st1 =>
    rw [h1] at h
    simp only [] at h
    cases h2 : add_port_state_block cfg.unit_source
        (create_inlet_list cfg.unit_disjunct_inlet.length) st1 with
    | error e2 =>
      rw [h2] at h
      simp only [] at h
      cases h
      exact add_port_state_block_err_frame h2
    | ok st2 =>
      rw [h2] at h
      simp only [] at h
      cases h3 : add_port_state_block cfg.unit_sink
          (create_outlet_list cfg.unit_disjunct_outlet.length) st2 with
      | error e2 =>
        rw [h3] at h
        simp only [] at h
        cases h
        exact add_port_state_block_err_frame h3
      | ok st3 =>
        rw [h3] at h
        simp only [] at h
        cases h4 : arc_selector_inlet_to_unit cfg.unit_disjunct.length
            cfg.unit_disjunct_inlet.length cfg.construct_ports
            cfg.unit_disjunct_inlet
            (add_port_objects cfg.construct_ports
              (create_outlet_list cfg.unit_disjunct_outlet.length)
              (add_port_objects cfg.construct_ports
                (create_inlet_list cfg.unit_disjunct_inlet.length) st3)) with
        | error e2 =>
          rw [h4] at h
          simp only [] at h
          cases h
          exact wireRun_err_frame h4
        | ok st4 =>
          rw [h4] at h
          simp only [] at h
          exact wireRun_err_frame h

theorem buildOn_ok_arcsOk {builtins : List String} {st : ModelState}
    {cfg : SelConfig} {r : ModelState} (h : buildOn builtins st cfg = .ok r) :
    ArcsOk r := by
  simp only [buildOn] at h
  have hst0 : ArcsOk (create_unit_disjunct builtins cfg.unit_disjunct.length
      (assignSelectorBlock st)) := by
    constructor
    · intro a ha
      simp only [create_unit_disjunct, assignSelectorBlock] at ha
      simp at ha
    · simp [create_unit_disjunct, assignSelectorBlock]
  cases h1 : add_units_to_disjunct cfg.unit_disjunct
      (create_unit_disjunct builtins cfg.unit_disjunct.length
        (assignSelectorBlock st)) with
  | error e => rw [h1] at h; simp at h
  | ok st1 =>
    rw [h1] at h
    simp only [] at h
    unfold add_units_to_disjunct at h1
    have hst1 : ArcsOk st1 := arcsOk_addUnitsLoop h1 hst0
    cases h2 : add_port_state_block cfg.unit_source
        (create_inlet_list cfg.unit_disjunct_inlet.length) st1 with
    | error e => rw [h2] at h; simp at h
    | ok st2 =>
      rw [h2] at h
      simp only [] at h
      have hq2 := add_port_state_block_ok_elim h2
      have hst2 : ArcsOk st2 := by
        rw [hq2]
        exact hst1
      cases h3 : add_port_state_block cfg.unit_sink
          (create_outlet_list cfg.unit_disjunct_outlet.length) st2 with
      | error e => rw [h3] at h; simp at h
      | ok st3 =>
        rw [h3] at h
        simp only [] at h
        have hq3 := add_port_state_block_ok_elim h3
        have hst3 : ArcsOk st3 := by
          rw [hq3]
          exact hst2
        have hstp : ArcsOk (add_port_objects cfg.construct_ports
            (create_outlet_list cfg.unit_disjunct_outlet.length)
            (add_port_objects cfg.construct_ports
              (create_inlet_list cfg.unit_disjunct_inlet.length) st3)) := by
          rw [add_port_objects_eq, add_port_objects_eq]
          exact hst3
        cases h4 : arc_selector_inlet_to_unit cfg.unit_disjunct.length
            cfg.unit_disjunct_inlet.length cfg.construct_ports
            cfg.unit_disjunct_inlet
            (add_port_objects cfg.construct_ports
              (create_outlet_list cfg.unit_disjunct_outlet.length)
              (add_port_objects cfg.construct_ports
                (create_inlet_list cfg.unit_disjunct_inlet.length) st3)) with
        | error e => rw [h4] at h; simp at h
        | ok st4 =>
          rw [h4] at h
          simp only [] at h
          have hst4 : ArcsOk st4 := arcsOk_wireRun h4 hstp
          exact arcsOk_wireRun h hst4

theorem buildOn_ok_nodup {builtins : List String} {st : ModelState}
    {cfg : SelConfig} {r : ModelState} (htop : st.topAttrs.Nodup)
    (h : buildOn builtins st cfg = .ok r) :
    r.topAttrs.Nodup ∧ (r.branches.map Prod.fst).Nodup ∧
    (r.arcs.map (fun a => (a.branch, a.name))).Nodup := by
  obtain ⟨hkeys, _, _, htopf⟩ := buildOn_ok_elim h
  refine ⟨?_, ?_, (buildOn_ok_arcsOk h).2⟩
  · rw [htopf]
    exact nodup_putAttrs (nodup_putAttr htop _)
  · rw [hkeys]
    exact rangeSet_nodup _

/-! ## Helper lemmas: exactly-one semantics -/

theorem countP_eq_one_iff {l : List Nat} (hl : l.Nodup) (p : Nat → Bool) :
    l.countP p = 1 ↔ ∃! a, a ∈ l ∧ p a = true := by
  induction l with
  | nil =>
    simp only [List.countP_nil]
    constructor
    · intro h
      exact absurd h (by omega)
    · rintro ⟨a, ⟨ha, _⟩, _⟩
      simp at ha
  | cons x xs ih =>
    rcases List.nodup_cons.mp hl with ⟨hx, hxs⟩
    rw [List.countP_cons]
    by_cases hpx : p x = true
    · rw [if_pos hpx]
      constructor
      · intro h
        have h0 : xs.countP p = 0 := by omega
        refine ⟨x, ⟨List.mem_cons_self x xs, hpx⟩, ?_⟩
        rintro y ⟨hy, hpy⟩
        rcases List.mem_cons.mp hy with rfl | hy'
        · rfl
        · exact absurd hpy (by simpa using List.countP_eq_zero.mp h0 y hy')
      · rintro ⟨a, ⟨ha, hpa⟩, huniq⟩
        have ha' : a = x := (huniq x ⟨List.mem_cons_self x xs, hpx⟩).symm
        subst ha'
        have h0 : xs.countP p = 0 := by
          rw [List.countP_eq_zero]
          intro y hy hpy
          have := huniq y ⟨List.mem_cons_of_mem a hy, by simpa using hpy⟩
          subst this
          exact hx hy
        omega
    · rw [if_neg hpx]
      rw [Nat.add_zero, ih hxs]
      constructor
      · rintro ⟨a, ⟨ha, hpa⟩, huniq⟩
        refine ⟨a, ⟨List.mem_cons_of_mem x ha, hpa⟩, ?_⟩
        rintro y ⟨hy, hpy⟩
        rcases List.mem_cons.mp hy with rfl | hy'
        · exact absurd hpy hpx
        · exact huniq y ⟨hy', hpy⟩
      · rintro ⟨a, ⟨ha, hpa⟩, huniq⟩
        have ha' : a ∈ xs := by
          rcases List.mem_cons.mp ha with rfl | hy'
          · exact absurd hpa hpx
          · exact hy'
        refine ⟨a, ⟨ha', hpa⟩, ?_⟩
        rintro y ⟨hy, hpy⟩
        exact huniq y ⟨List.mem_cons_of_mem x hy, hpy⟩

/-! ## Helper lemmas: the initialization loop -/

theorem propagateInlet_selIn (σ : SysState) (b k : Nat) :
    (propagateInlet σ b k).selIn = σ.selIn := rfl

theorem propagateInlet_selOut (σ : SysState) (b k : Nat) :
    (propagateInlet σ b k).selOut = σ.selOut := rfl

theorem setBranch_selIn (σ : SysState) (b : Nat) (s : BranchState) :
    (setBranch σ b s).selIn = σ.selIn := rfl

theorem setBranch_selOut (σ : SysState) (b : Nat) (s : BranchState) :
    (setBranch σ b s).selOut = σ.selOut := rfl

theorem propagateInlet_branch_same (σ : SysState) (b k : Nat) :
    (propagateInlet σ b k).branch b = ⟨σ.selIn k, (σ.branch b).internalVars⟩ := by
  simp [propagateInlet]

theorem propagateInlet_branch_other {b' b : Nat} (h : b' ≠ b) (σ : SysState)
    (k : Nat) : (propagateInlet σ b k).branch b' = σ.branch b' := by
  simp [propagateInlet, h]

theorem setBranch_branch_same (σ : SysState) (b : Nat) (s : BranchState) :
    (setBranch σ b s).branch b = s := by
  simp [setBranch]

theorem setBranch_branch_other {b' b : Nat} (h : b' ≠ b) (σ : SysState)
    (s : BranchState) : (setBranch σ b s).branch b' = σ.branch b' := by
  simp [setBranch, h]

/-! Step equations for `initLoop`, one per control path of the loop body. -/

theorem initLoop_cons_noDisjunct {κ : Type} (env : InitEnv κ) (kw : κ)
    (b : Nat) (rest : List Nat) (σc : SysState) (tr : List (Nat × κ))
    (hd : env.disjunctPresent b = false) :
    initLoop env kw (b :: rest) σc tr =
      (σc, tr, some (.attributeError (unitDisjunctName b))) := by
  simp [initLoop, hd]

theorem initLoop_cons_noUnit {κ : Type} (env : InitEnv κ) (kw : κ)
    (b : Nat) (rest : List Nat) (σc : SysState) (tr : List (Nat × κ))
    (hd : env.disjunctPresent b = true) (hu : env.unitPresent b = false) :
    initLoop env kw (b :: rest) σc tr =
      (σc, tr, some (.attributeError (env.unitLocalName b))) := by
  simp [initLoop, hd, hu]

theorem initLoop_cons_noInlet {κ : Type} (env : InitEnv κ) (kw : κ)
    (b : Nat) (rest : List Nat) (σc : SysState) (tr : List (Nat × κ))
    (hd : env.disjunctPresent b = true) (hu : env.unitPresent b = true)
    (hk : env.inletArcSrc b = none) :
    initLoop env kw (b :: rest) σc tr =
      (σc, tr, some (.attributeError (inletArcName b))) := by
  simp [initLoop, hd, hu, hk]

theorem initLoop_cons_fail {κ : Type} (env : InitEnv κ) (kw : κ)
    (b : Nat) (rest : List Nat) (σc : SysState) (tr : List (Nat × κ))
    (k : Nat) (s : BranchState)
    (hd : env.disjunctPresent b = true) (hu : env.unitPresent b = true)
    (hk : env.inletArcSrc b = some k)
    (hinit : env.initFun b kw ((propagateInlet σc b k).branch b) = .error s) :
    initLoop env kw (b :: rest) σc tr =
      (setBranch (propagateInlet σc b k) b s, tr ++ [(b, kw)],
        some .initializationError) := by
  simp [initLoop, hd, hu, hk, hinit]

theorem initLoop_cons_noOutlet {κ : Type} (env : InitEnv κ) (kw : κ)
    (b : Nat) (rest : List Nat) (σc : SysState) (tr : List (Nat × κ))
    (k : Nat) (s : BranchState)
    (hd : env.disjunctPresent b = true) (hu : env.unitPresent b = true)
    (hk : env.inletArcSrc b = some k)
    (hinit : env.initFun b kw ((propagateInlet σc b k).branch b) = .ok s)
    (hout : env.outletArcPresent b = false) :
    initLoop env kw (b :: rest) σc tr =
      (setBranch (propagateInlet σc b k) b s, tr ++ [(b, kw)],
        some (.attributeError (outletArcName b))) := by
  simp [initLoop, hd, hu, hk, hinit, hout]

theorem initLoop_cons_ok {κ : Type} (env : InitEnv κ) (kw : κ)
    (b : Nat) (rest : List Nat) (σc : SysState) (tr : List (Nat × κ))
    (k : Nat) (s : BranchState)
    (hd : env.disjunctPresent b = true) (hu : env.unitPresent b = true)
    (hk : env.inletArcSrc b = some k)
    (hinit : env.initFun b kw ((propagateInlet σc b k).branch b) = .ok s)
    (hout : env.outletArcPresent b = true) :
    initLoop env kw (b :: rest) σc tr =
      initLoop env kw rest (setBranch (propagateInlet σc b k) b s)
        (tr ++ [(b, kw)]) := by
  simp [initLoop, hd, hu, hk, hinit, hout]

theorem initLoop_spec {κ : Type} (env : InitEnv κ) (kw : κ) (σ : SysState) :
    ∀ (bs : List Nat) (σc : SysState) (tr : List (Nat × κ)),
      bs.Nodup →
      (∀ b ∈ bs, env.disjunctPresent b = true ∧ env.unitPresent b = true ∧
        (env.inletArcSrc b).isSome = true ∧ env.outletArcPresent b = true) →
      σc.selIn = σ.selIn →
      (∀ b ∈ bs, σc.branch b = σ.branch b) →
      (initLoop env kw bs σc tr).2.1 =
        tr ++ (cutAfterFail env kw σ bs).map (fun b => (b, kw)) ∧
      (initLoop env kw bs σc tr).2.2 =
        (if bs.any (failsAt env kw σ) then some PyError.initializationError
          else none) := by
  intro bs
  induction bs with
  | nil =>
    intro σc tr _ _ _ _
    simp [initLoop, cutAfterFail]
  | cons b rest ih =>
    intro σc tr hnd hwf hselIn hbr
    obtain ⟨hd, hu, harc, hout⟩ := hwf b (List.mem_cons_self b rest)
    rcases List.nodup_cons.mp hnd with ⟨hbx, hndr⟩
    cases hk : env.inletArcSrc b with
    | none => rw [hk] at harc; simp at harc
    | some k =>
      have hseed : (propagateInlet σc b k).branch b = seededBranch env σ b := by
        rw [propagateInlet_branch_same, seededBranch, hk]
        have h1 := hbr b (List.mem_cons_self b rest)
        rw [hselIn, h1]
        rfl
      have hfail : failsAt env kw σ b =
          (match env.initFun b kw (seededBranch env σ b) with
            | .ok _ => false
            | .error _ => true) := rfl
      cases hinit : env.initFun b kw (seededBranch env σ b) with
      | error s =>
        have hf : failsAt env kw σ b = true := by rw [hfail, hinit]
        rw [initLoop_cons_fail env kw b rest σc tr k s hd hu hk
          (by rw [hseed]; exact hinit)]
        constructor
        · simp only [cutAfterFail, hf, if_pos]
          simp
        · simp [List.any_cons, hf]
      | ok s =>
        have hf : failsAt env kw σ b = false := by rw [hfail, hinit]
        rw [initLoop_cons_ok env kw b rest σc tr k s hd hu hk
          (by rw [hseed]; exact hinit) hout]
        have hsel2 : (setBranch (propagateInlet σc b k) b s).selIn = σ.selIn := by
          rw [setBranch_selIn, propagateInlet_selIn, hselIn]
        have hbr2 : ∀ b' ∈ rest,
            (setBranch (propagateInlet σc b k) b s).branch b' = σ.branch b' := by
          intro b' hb'
          have hne : b' ≠ b := fun hh => hbx (hh ▸ hb')
          rw [setBranch_branch_other hne, propagateInlet_branch_other hne]
          exact hbr b' (List.mem_cons_of_mem b hb')
        obtain ⟨htr, herr⟩ := ih (setBranch (propagateInlet σc b k) b s)
          (tr ++ [(b, kw)]) hndr
          (fun b' hb' => hwf b' (List.mem_cons_of_mem b hb')) hsel2 hbr2
        constructor
        · rw [htr]
          simp only [cutAfterFail, hf, if_neg Bool.false_ne_true]
          simp
        · rw [herr]
          simp [List.any_cons, hf]

theorem initLoop_frame {κ : Type} (env : InitEnv κ) (kw : κ) (σ : SysState) :
    ∀ (bs : List Nat) (σc : SysState) (tr : List (Nat × κ)),
      bs.Nodup →
      σc.selIn = σ.selIn → σc.selOut = σ.selOut →
      (∀ b, σc.branch b = σ.branch b ∨
        σc.branch b = initOutcome env kw σ b) →
      (∀ b ∈ bs, σc.branch b = σ.branch b) →
      (initLoop env kw bs σc tr).1.selIn = σ.selIn ∧
      (initLoop env kw bs σc tr).1.selOut = σ.selOut ∧
      (∀ b, (initLoop env kw bs σc tr).1.branch b = σ.branch b ∨
        (initLoop env kw bs σc tr).1.branch b = initOutcome env kw σ b) := by
  intro bs
  induction bs with
  | nil =>
    intro σc tr _ h1 h2 hP _
    exact ⟨h1, h2, hP⟩
  | cons b rest ih =>
    intro σc tr hnd hselIn hselOut hP hbr
    rcases List.nodup_cons.mp hnd with ⟨hbx, hndr⟩
    by_cases hd : env.disjunctPresent b = false
    · rw [initLoop_cons_noDisjunct env kw b rest σc tr hd]
      exact ⟨hselIn, hselOut, hP⟩
    · rw [Bool.not_eq_false] at hd
      by_cases hu : env.unitPresent b = false
      · rw [initLoop_cons_noUnit env kw b rest σc tr hd hu]
        exact ⟨hselIn, hselOut, hP⟩
      · rw [Bool.not_eq_false] at hu
        cases hk : env.inletArcSrc b with
        | none =>
          rw [initLoop_cons_noInlet env kw b rest σc tr hd hu hk]
          exact ⟨hselIn, hselOut, hP⟩
        | some k =>
          have hseed : (propagateInlet σc b k).branch b =
              seededBranch env σ b := by
            rw [propagateInlet_branch_same, seededBranch, hk]
            have h1 := hbr b (List.mem_cons_self b rest)
            rw [hselIn, h1]
            rfl
          have hPnext : ∀ (s : BranchState),
              s = initOutcome env kw σ b →
              ∀ b', (setBranch (propagateInlet σc b k) b s).branch b' = σ.branch b' ∨
                (setBranch (propagateInlet σc b k) b s).branch b' =
                  initOutcome env kw σ b' := by
            intro s hs b'
            by_cases hne : b' = b
            · subst hne
              rw [setBranch_branch_same]
              exact .inr hs
            · rw [setBranch_branch_other hne, propagateInlet_branch_other hne]
              exact hP b'
          have hsel2 : ∀ s, (setBranch (propagateInlet σc b k) b s).selIn = σ.selIn := by
            intro s
            rw [setBranch_selIn, propagateInlet_selIn, hselIn]
          have hsel3 : ∀ s, (setBranch (propagateInlet σc b k) b s).selOut = σ.selOut := by
            intro s
            rw [setBranch_selOut, propagateInlet_selOut, hselOut]
          cases hinit : env.initFun b kw (seededBranch env σ b) with
          | error s =>
            have hs : s = initOutcome env kw σ b := by
              rw [initOutcome, hinit]
            rw [initLoop_cons_fail env kw b rest σc tr k s hd hu hk
              (by rw [hseed]; exact hinit)]
            exact ⟨hsel2 s, hsel3 s, hPnext s hs⟩
          | ok s =>
            have hs : s = initOutcome env kw σ b := by
              rw [initOutcome, hinit]
            by_cases hout : env.outletArcPresent b = false
            · rw [initLoop_cons_noOutlet env kw b rest σc tr k s hd hu hk
                (by rw [hseed]; exact hinit) hout]
              exact ⟨hsel2 s, hsel3 s, hPnext s hs⟩
            · rw [Bool.not_eq_false] at hout
              rw [initLoop_cons_ok env kw b rest σc tr k s hd hu hk
                (by rw [hseed]; exact hinit) hout]
              apply ih (setBranch (propagateInlet σc b k) b s) (tr ++ [(b, kw)])
                hndr (hsel2 s) (hsel3 s) (hPnext s hs)
              intro b' hb'
              have hne : b' ≠ b := fun hh => hbx (hh ▸ hb')
              rw [setBranch_branch_other hne, propagateInlet_branch_other hne]
              exact hbr b' (List.mem_cons_of_mem b hb')

/-! ## Bridge lemmas and demonstration inputs for the claims -/

theorem wireName_true (c : Nat) : wireName true c = inletArcName c := rfl

theorem wireName_false (c : Nat) : wireName false c = outletArcName c := rfl

theorem arc_inlet_eq_wireRun (n m : Nat) (cp : Bool)
    (entries : List (Nat × List Nat)) (st : ModelState) :
    arc_selector_inlet_to_unit n m cp entries st =
      wireRun n m cp true entries st := rfl

theorem arc_outlet_eq_wireRun (n m : Nat) (cp : Bool)
    (entries : List (Nat × List Nat)) (st : ModelState) :
    arc_unit_outlet_to_selector n m cp entries st =
      wireRun n m cp false entries st := rfl

theorem wireFanoutEdges_length (isIn : Bool) (k : Nat) :
    ∀ (c : Nat) (l : List Nat), (wireFanoutEdges isIn k c l).length = l.length := by
  intro c l
  induction l generalizing c with
  | nil => rfl
  | cons p rest ih => simp [wireFanoutEdges, ih]

theorem cutAfterFail_sublist {κ : Type} (env : InitEnv κ) (kw : κ)
    (σ : SysState) : ∀ bs : List Nat, (cutAfterFail env kw σ bs).Sublist bs := by
  intro bs
  induction bs with
  | nil => exact List.Sublist.refl []
  | cons b rest ih =>
    unfold cutAfterFail
    split
    · exact (List.nil_sublist rest).cons₂ b
    · exact ih.cons₂ b

theorem rangeSet_pairwise (n : Nat) : (rangeSet n).Pairwise (· < ·) :=
  List.pairwise_lt_range' 1 n

/-- A two-candidate demonstration configuration: one inlet index fanning out
into both branches, one outlet index fanning in from both. -/
def demoCfg : SelConfig :=
  { unit_disjunct := ["u1", "u2"]
    unit_source := true
    unit_sink := true
    unit_disjunct_inlet := [(1, [11, 12])]
    unit_disjunct_outlet := [(1, [21, 22])]
    mixed_state_block := none
    construct_ports := true }

/-- A selector-model state as it stands right before the wiring stage: two
branches holding their relocated candidates and no arcs yet. -/
def demoWireStart : ModelState :=
  { topAttrs := ["selector_block"]
    branches := [(1, ["u1"]), (2, ["u2"])]
    arcs := []
    disjunction := [1, 2] }

def demoWireMid : ModelState :=
  match arc_selector_inlet_to_unit 2 1 true [(1, [11, 12])] demoWireStart with
  | .ok s => s
  | .error _ => default

def demoWireEnd : ModelState :=
  match arc_unit_outlet_to_selector 2 1 true [(1, [21, 22])] demoWireMid with
  | .ok s => s
  | .error _ => default

/-! ## The claims -/

/-- C9: the `mixed_state_block` configuration option has no effect on
`build`.  The source declares it (lines 133-145) and never reads it: two
configurations identical except for that option produce identical build
results (same branches, ports, edges, and disjunction — or the identical
error). -/
theorem c9_mixed_state_block_noop (builtins : List String) (st : ModelState)
    (cfg : SelConfig) (m₁ m₂ : Option Nat) :
    buildOn builtins st { cfg with mixed_state_block := m₁ } =
      buildOn builtins st { cfg with mixed_state_block := m₂ } := rfl

/-- C1: for every candidate list of length N ≥ 1, a successful `build`
creates exactly the N Disjunct blocks `unit_disjunct_1 .. unit_disjunct_N`
on `selector_block` and one Disjunction referencing precisely those N
disjuncts, whose feasible region (the external exactly-one contract) is
exactly "one of the N branches is active". -/
theorem c1_build_branches (builtins : List String) (st : ModelState)
    (cfg : SelConfig) (n : Nat) (active : Nat → Bool)
    (hn : cfg.unit_disjunct.length = n) (h1 : 1 ≤ n)
    (hok : isOkB (buildOn builtins st cfg) = true) :
    (buildOn builtins st cfg).map (fun s => s.branches.map Prod.fst) =
      .ok (rangeSet n) ∧
    (buildOn builtins st cfg).map
        (fun s => s.branches.map (fun e => unitDisjunctName e.1)) =
      .ok ((rangeSet n).map unitDisjunctName) ∧
    (buildOn builtins st cfg).map ModelState.disjunction = .ok (rangeSet n) ∧
    (disjunctionFeasible (rangeSet n) active ↔ ExactlyOneActive n active) := by
  cases hb : buildOn builtins st cfg with
  | error e => rw [hb] at hok; simp [isOkB] at hok
  | ok r =>
    obtain ⟨hkeys, hdis, _, _⟩ := buildOn_ok_elim hb
    rw [hn] at hkeys hdis
    refine ⟨?_, ?_, ?_, ?_⟩
    · exact congrArg Except.ok hkeys
    · apply congrArg Except.ok
      have hmm : r.branches.map (fun e => unitDisjunctName e.1) =
          (r.branches.map Prod.fst).map unitDisjunctName := by
        rw [List.map_map]
        rfl
      show r.branches.map (fun e => unitDisjunctName e.1) =
        (rangeSet n).map unitDisjunctName
      rw [hmm, hkeys]
    · exact congrArg Except.ok hdis
    · unfold disjunctionFeasible ExactlyOneActive
      exact countP_eq_one_iff (rangeSet_nodup n) active

theorem c1_build_branches_witness :
    (buildOn [] emptyModel demoCfg).map (fun s => s.branches.map Prod.fst) =
      .ok (rangeSet 2) ∧
    (buildOn [] emptyModel demoCfg).map
        (fun s => s.branches.map (fun e => unitDisjunctName e.1)) =
      .ok ((rangeSet 2).map unitDisjunctName) ∧
    (buildOn [] emptyModel demoCfg).map ModelState.disjunction =
      .ok (rangeSet 2) ∧
    (disjunctionFeasible (rangeSet 2) (fun i => i == 1) ↔
      ExactlyOneActive 2 (fun i => i == 1)) :=
  c1_build_branches [] emptyModel demoCfg 2 (fun i => i == 1) rfl
    (by decide) (by decide)

/-- C2: a wiring pass that runs to completion creates exactly the edges of
the fan-out mapping, in mapping order: a length-1 list at index k yields one
edge inside branch k linking SelectorPort k to the single listed point; a
longer list yields one edge per element, the i-th inside branch i starting
at branch 1; inlet edges run SelectorPort → candidate point, outlet edges
candidate point → SelectorPort (see `wireEntryEdges` / `wireArc`). -/
theorem c2_wiring_edges (n mIn mOut : Nat) (cp : Bool)
    (entriesIn entriesOut : List (Nat × List Nat)) (st st₁ st₂ : ModelState)
    (hin : arc_selector_inlet_to_unit n mIn cp entriesIn st = .ok st₁)
    (hout : arc_unit_outlet_to_selector n mOut cp entriesOut st₁ = .ok st₂) :
    st₂.arcs = st.arcs ++ inletEdgesSpec entriesIn ++
      outletEdgesSpec entriesOut := by
  rw [arc_inlet_eq_wireRun] at hin
  rw [arc_outlet_eq_wireRun] at hout
  obtain ⟨h1, _, _, _, _⟩ := wireRun_ok_elim hin
  obtain ⟨h2, _, _, _, _⟩ := wireRun_ok_elim hout
  rw [h2, h1]
  rfl

theorem c2_wiring_edges_witness :
    demoWireEnd.arcs = demoWireStart.arcs ++ inletEdgesSpec [(1, [11, 12])] ++
      outletEdgesSpec [(1, [21, 22])] :=
  c2_wiring_edges 2 1 1 true [(1, [11, 12])] [(1, [21, 22])] demoWireStart
    demoWireMid demoWireEnd rfl rfl

/-- C5: during `initialize` the selector itself mutates state only by the
one-directional copy along each branch's inlet edge into that branch's
candidate inlet (the seed the candidate's own `initialize` then transforms
— `initOutcome` applied to `seededBranch`): the SelectorPort state
containers (`selIn`, `selOut`) are never mutated, and nothing is propagated
along any outlet edge — every branch either keeps its initial state (not
reached) or holds exactly the candidate's outcome on the seeded state. -/
theorem c5_initialize_frame {κ : Type} (env : InitEnv κ) (kw : κ)
    (σ : SysState) :
    (initializeModel env kw σ).1.selIn = σ.selIn ∧
    (initializeModel env kw σ).1.selOut = σ.selOut ∧
    ∀ b, (initializeModel env kw σ).1.branch b = σ.branch b ∨
      (initializeModel env kw σ).1.branch b = initOutcome env kw σ b := by
  unfold initializeModel
  exact initLoop_frame env kw σ (rangeSet env.nUnits) σ [] (rangeSet_nodup _)
    rfl rfl (fun _ => .inl rfl) (fun _ _ => rfl)

/-- C3: when the built structure is intact, `initialize` visits the
branches in strictly ascending index order 1..N, invoking each candidate's
own `initialize` exactly once with the caller's kwargs forwarded unchanged;
the visit list is cut immediately after the first candidate that raises
`InitializationError`, which is surfaced to the caller — candidates of the
later branches are never initialized. -/
theorem c3_initialize_order {κ : Type} (env : InitEnv κ) (kw : κ)
    (σ : SysState)
    (hwf : ∀ b ∈ rangeSet env.nUnits, env.disjunctPresent b = true ∧
      env.unitPresent b = true ∧ (env.inletArcSrc b).isSome = true ∧
      env.outletArcPresent b = true) :
    (initializeModel env kw σ).2.1 =
      (cutAfterFail env kw σ (rangeSet env.nUnits)).map (fun b => (b, kw)) ∧
    (cutAfterFail env kw σ (rangeSet env.nUnits)).Pairwise (· < ·) ∧
    (initializeModel env kw σ).2.2 =
      (if (rangeSet env.nUnits).any (failsAt env kw σ) then
        some PyError.initializationError else none) := by
  obtain ⟨htr, herr⟩ := initLoop_spec env kw σ (rangeSet env.nUnits) σ []
    (rangeSet_nodup _) hwf rfl (fun _ _ => rfl)
  refine ⟨?_, ?_, ?_⟩
  · unfold initializeModel
    rw [htr]
    simp
  · exact (rangeSet_pairwise env.nUnits).sublist
      (cutAfterFail_sublist env kw σ (rangeSet env.nUnits))
  · unfold initializeModel
    rw [herr]

/-- Demonstration environment for C3: three intact branches whose second
candidate raises `InitializationError`. -/
def c3Env : InitEnv Nat :=
  { nUnits := 3
    disjunctPresent := fun _ => true
    unitLocalName := fun b => "u" ++ toString b
    unitPresent := fun _ => true
    inletArcSrc := fun _ => some 1
    outletArcPresent := fun _ => true
    initFun := fun b _ s => if b = 2 then .error s else .ok s }

/-- The all-zero demonstration value state. -/
def demoSys : SysState :=
  { selIn := fun _ _ => 0
    selOut := fun _ _ => 0
    branch := fun _ => ⟨fun _ => 0, fun _ => 0⟩ }

theorem c3_initialize_order_witness :
    (initializeModel c3Env 42 demoSys).2.1 =
      (cutAfterFail c3Env 42 demoSys (rangeSet c3Env.nUnits)).map
        (fun b => (b, 42)) ∧
    (cutAfterFail c3Env 42 demoSys (rangeSet c3Env.nUnits)).Pairwise (· < ·) ∧
    (initializeModel c3Env 42 demoSys).2.2 =
      (if (rangeSet c3Env.nUnits).any (failsAt c3Env 42 demoSys) then
        some PyError.initializationError else none) :=
  c3_initialize_order c3Env 42 demoSys (by decide)

/-- A pre-wiring state with three branches carrying no components yet. -/
def c4Start : ModelState :=
  { topAttrs := []
    branches := [(1, []), (2, []), (3, [])]
    arcs := []
    disjunction := [1, 2, 3] }

/-- A pre-wiring state with two branches carrying no components yet. -/
def c4Start2 : ModelState :=
  { topAttrs := []
    branches := [(1, []), (2, [])]
    arcs := []
    disjunction := [1, 2] }

/-- C4 counterexample: with N = 3 branches and a fan-out list of length 2
(neither 1 nor N) the claimed ConfigurationError is never raised — the
wiring returns normally, silently creating the two edges in branches 1 and
2 and leaving branch 3 unwired. -/
theorem c4_counterexample :
    arc_selector_inlet_to_unit 3 1 true [(1, [10, 20])] c4Start =
      .ok { topAttrs := []
            branches := [(1, ["inlet_to_unit_arc_1"]),
              (2, ["inlet_to_unit_arc_2"]), (3, [])]
            arcs := [⟨1, "inlet_to_unit_arc_1", .selIn 1, .uPort 10⟩,
              ⟨2, "inlet_to_unit_arc_2", .selIn 1, .uPort 20⟩]
            disjunction := [1, 2, 3] } := rfl

/-- C4 amended: the wiring performs no fan-out-length validation and raises
no ConfigurationError at all.  For a single-entry inlet mapping `(k, l)`
over N branches and M declared inlet ports (`construct_ports` true, `k` a
declared port index, no colliding arc names present): (a) `1 < |l| ≤ N`
silently creates `|l|` edges in branches `1..|l|`; (b) an empty list raises
IndexError (from `lst[0]`); (c) `|l| > N` raises AttributeError for the
missing branch `N+1` after wiring the first N list elements; (d) a branch
index `k > N` raises AttributeError for the missing branch `k`; (e) no
error the wiring ever raises is ConfigurationError or BurntToast. -/
theorem c4_amended :
    (∀ (n m k : Nat) (l : List Nat) (st : ModelState), 1 ≤ k → k ≤ m →
      1 < l.length → l.length ≤ n →
      (∀ j ∈ rangeSet n, inletArcName j ∉ getComps st.branches j) →
      (arc_selector_inlet_to_unit n m true [(k, l)] st).map ModelState.arcs =
        .ok (st.arcs ++ wireFanoutEdges true k 1 l) ∧
      (wireFanoutEdges true k 1 l).length = l.length) ∧
    (∀ (n m k : Nat) (st : ModelState), 1 ≤ k → k ≤ m → k ≤ n →
      arc_selector_inlet_to_unit n m true [(k, [])] st =
        .error .indexError) ∧
    (∀ (n m k : Nat) (l : List Nat) (st : ModelState), 1 ≤ k → k ≤ m →
      1 < l.length → n < l.length →
      (∀ j ∈ rangeSet n, inletArcName j ∉ getComps st.branches j) →
      arc_selector_inlet_to_unit n m true [(k, l)] st =
        .error (.attributeError (unitDisjunctName (n + 1)))) ∧
    (∀ (n m k p : Nat) (st : ModelState), n < k →
      arc_selector_inlet_to_unit n m true [(k, [p])] st =
        .error (.attributeError (unitDisjunctName k))) ∧
    (∀ (n m : Nat) (cp : Bool) (entries : List (Nat × List Nat))
      (st : ModelState) (e : PyError),
      arc_selector_inlet_to_unit n m cp entries st = .error e →
      e ≠ .configurationError ∧ e ≠ .burntToast) := by
  refine ⟨?_, ?_, ?_, ?_, ?_⟩
  · intro n m k l st hk1 hk2 hl hln hclean
    have hclean' : ∀ j, 1 ≤ j → j < 1 + l.length →
        wireName true j ∉ getComps st.branches j := by
      intro j hj1 hj2
      rw [wireName_true]
      have hj3 : j ≤ n := by omega
      exact hclean j (mem_rangeSet.mpr ⟨hj1, hj3⟩)
    obtain ⟨st', hok, harc, _⟩ := @wireFanoutLoop_clean n m true true k l 1 st
      rfl hk1 hk2 le_rfl (by omega) hclean'
    have hstep : wireEntryStep n m true true (k, l) st = .ok st' := by
      unfold wireEntryStep
      rw [if_pos hl]
      exact hok
    have hrun : arc_selector_inlet_to_unit n m true [(k, l)] st = .ok st' := by
      rw [arc_inlet_eq_wireRun]
      simp only [wireRun]
      rw [hstep]
    refine ⟨?_, wireFanoutEdges_length true k 1 l⟩
    rw [hrun]
    exact congrArg Except.ok harc
  · intro n m k st hk1 hk2 hk3
    have hstep : wireEntryStep n m true true (k, ([] : List Nat)) st =
        .error .indexError := by
      unfold wireEntryStep
      rw [if_neg (by simp)]
      unfold wireSingleStep
      rw [getDisjunct_of_le hk1 hk3]
      simp only []
      rw [getPort_ok_of true rfl hk1 hk2]
      rfl
    rw [arc_inlet_eq_wireRun]
    simp only [wireRun]
    rw [hstep]
  · intro n m k l st hk1 hk2 hl hover hclean
    have hclean' : ∀ j, 1 ≤ j → j ≤ n →
        wireName true j ∉ getComps st.branches j := by
      intro j hj1 hj2
      rw [wireName_true]
      exact hclean j (mem_rangeSet.mpr ⟨hj1, hj2⟩)
    have hloop := @wireFanoutLoop_overflow n m true true k l 1 st
      rfl hk1 hk2 le_rfl (by omega) (by omega) hclean'
    have hstep : wireEntryStep n m true true (k, l) st =
        .error (.attributeError (unitDisjunctName (n + 1))) := by
      unfold wireEntryStep
      rw [if_pos hl]
      exact hloop
    rw [arc_inlet_eq_wireRun]
    simp only [wireRun]
    rw [hstep]
  · intro n m k p st hnk
    have hstep : wireEntryStep n m true true (k, [p]) st =
        .error (.attributeError (unitDisjunctName k)) := by
      unfold wireEntryStep
      rw [if_neg (by simp)]
      unfold wireSingleStep
      rw [getDisjunct_err (by omega)]
    rw [arc_inlet_eq_wireRun]
    simp only [wireRun]
    rw [hstep]
  · intro n m cp entries st e h
    rw [arc_inlet_eq_wireRun] at h
    have hf := wireRun_err_frame h
    cases e <;> simp_all [frameworkErrorB]

theorem c4_amended_witness :
    ((arc_selector_inlet_to_unit 3 1 true [(1, [10, 20])] c4Start).map
        ModelState.arcs =
      .ok (c4Start.arcs ++ wireFanoutEdges true 1 1 [10, 20]) ∧
      (wireFanoutEdges true 1 1 [10, 20]).length =
        ([10, 20] : List Nat).length) ∧
    arc_selector_inlet_to_unit 3 1 true [(1, [])] c4Start =
      .error .indexError ∧
    arc_selector_inlet_to_unit 2 1 true [(1, [10, 20, 30])] c4Start2 =
      .error (.attributeError (unitDisjunctName 3)) ∧
    arc_selector_inlet_to_unit 3 1 true [(5, [10])] c4Start =
      .error (.attributeError (unitDisjunctName 5)) ∧
    (PyError.indexError ≠ .configurationError ∧
      PyError.indexError ≠ .burntToast) :=
  ⟨c4_amended.1 3 1 1 [10, 20] c4Start (by decide) (by decide) (by decide)
      (by decide) (by decide),
    c4_amended.2.1 3 1 1 c4Start (by decide) (by decide) (by decide),
    c4_amended.2.2.1 2 1 1 [10, 20, 30] c4Start2 (by decide) (by decide)
      (by decide) (by decide) (by decide),
    c4_amended.2.2.2.1 3 1 5 10 c4Start (by decide),
    c4_amended.2.2.2.2 3 1 true [(1, [])] c4Start .indexError rfl⟩

/-- Environment for the C6 counterexample: one intact branch whose inlet
arc `inlet_to_unit_arc_1` was never created. -/
def c6Env : InitEnv Unit :=
  { nUnits := 1
    disjunctPresent := fun _ => true
    unitLocalName := fun _ => "u1"
    unitPresent := fun _ => true
    inletArcSrc := fun _ => none
    outletArcPresent := fun _ => true
    initFun := fun _ _ s => .ok s }

/-- Environment for the C6 witness: one branch whose outlet arc
`unit_to_outlet_arc_1` is missing; the candidate initializes fine. -/
def c6bEnv : InitEnv Unit :=
  { nUnits := 1
    disjunctPresent := fun _ => true
    unitLocalName := fun _ => "u1"
    unitPresent := fun _ => true
    inletArcSrc := fun _ => some 1
    outletArcPresent := fun _ => false
    initFun := fun _ _ s => .ok s }

/-- C6 counterexample: when the deterministically named inlet edge is
missing, `initialize` fails with the `getattr` AttributeError — not with
BurntToast.  (The module never raises BurntToast; it only imports it.) -/
theorem c6_counterexample :
    (initializeModel c6Env () demoSys).2.2 =
      some (.attributeError "inlet_to_unit_arc_1") ∧
    some (PyError.attributeError "inlet_to_unit_arc_1") ≠
      some PyError.burntToast := by
  constructor
  · rfl
  · decide

/-- C6 amended: a missing `inlet_to_unit_arc_<i>` or `unit_to_outlet_arc_<i>`
makes `initialize` fail with AttributeError (the plain `getattr` failure on
the Disjunct block), not BurntToast: shown for the first branch, where the
missing inlet edge aborts before any propagation and the missing outlet
edge aborts right after the candidate's own initialize returned. -/
theorem c6_amended :
    (∀ (κ : Type) (env : InitEnv κ) (kw : κ) (σ : SysState),
      1 ≤ env.nUnits → env.disjunctPresent 1 = true →
      env.unitPresent 1 = true → env.inletArcSrc 1 = none →
      (initializeModel env kw σ).2.2 =
        some (.attributeError (inletArcName 1))) ∧
    (∀ (κ : Type) (env : InitEnv κ) (kw : κ) (σ : SysState) (k : Nat)
      (s : BranchState),
      1 ≤ env.nUnits → env.disjunctPresent 1 = true →
      env.unitPresent 1 = true → env.inletArcSrc 1 = some k →
      env.initFun 1 kw ((propagateInlet σ 1 k).branch 1) = .ok s →
      env.outletArcPresent 1 = false →
      (initializeModel env kw σ).2.2 =
        some (.attributeError (outletArcName 1))) := by
  constructor
  · intro κ env kw σ hn hd hu hk
    obtain ⟨t, ht⟩ : ∃ t, env.nUnits = t + 1 := ⟨env.nUnits - 1, by omega⟩
    unfold initializeModel
    rw [ht, rangeSet_succ]
    rw [initLoop_cons_noInlet env kw 1 (List.range' 2 t) σ [] hd hu hk]
  · intro κ env kw σ k s hn hd hu hk hinit hout
    obtain ⟨t, ht⟩ : ∃ t, env.nUnits = t + 1 := ⟨env.nUnits - 1, by omega⟩
    unfold initializeModel
    rw [ht, rangeSet_succ]
    rw [initLoop_cons_noOutlet env kw 1 (List.range' 2 t) σ [] k s hd hu hk
      hinit hout]

theorem c6_amended_witness :
    (initializeModel c6Env () demoSys).2.2 =
      some (.attributeError (inletArcName 1)) ∧
    (initializeModel c6bEnv () demoSys).2.2 =
      some (.attributeError (outletArcName 1)) :=
  ⟨c6_amended.1 Unit c6Env () demoSys (by decide) rfl rfl rfl,
    c6_amended.2 Unit c6bEnv () demoSys 1
      ((propagateInlet demoSys 1 1).branch 1) (by decide) rfl rfl rfl rfl rfl⟩

/-- The empty-candidate configuration for C7. -/
def c7Cfg : SelConfig :=
  { unit_disjunct := []
    unit_source := true
    unit_sink := true
    unit_disjunct_inlet := []
    unit_disjunct_outlet := []
    mixed_state_block := none
    construct_ports := true }

/-- C7 counterexample: an empty candidate list does not make `build` fail
with ConfigurationError — `RangeSet(0)` is empty, so `build` returns
normally with zero branches and an empty disjunct list handed to the
external Disjunction constructor. -/
theorem c7_counterexample :
    buildModel [] c7Cfg = .ok ⟨["selector_block"], [], [], []⟩ ∧
    (Except.ok (⟨["selector_block"], [], [], []⟩ : ModelState) :
        Except PyError ModelState) ≠ .error .configurationError := by
  constructor
  · rfl
  · intro hh
    cases hh

/-- C7 amended: `build` performs no emptiness check — with an empty
candidate list (and empty port mappings, templates supplied) it succeeds
with zero branches, passing the empty disjunct list to the external
Disjunction constructor; and a relocation collision (a candidate whose
`local_name` is already a member of its fresh destination Disjunct)
surfaces the component framework's duplicate-name error, not
ConfigurationError. -/
theorem c7_amended :
    (∀ (builtins : List String) (st : ModelState) (cfg : SelConfig),
      cfg.unit_disjunct = [] → cfg.unit_source = true →
      cfg.unit_sink = true → cfg.unit_disjunct_inlet = [] →
      cfg.unit_disjunct_outlet = [] →
      buildOn builtins st cfg =
        .ok ⟨putAttr st.topAttrs "selector_block", [], [], []⟩) ∧
    (∀ (builtins : List String) (st : ModelState) (cfg : SelConfig)
      (u : String), cfg.unit_disjunct = [u] → u ∈ builtins →
      buildOn builtins st cfg = .error (.duplicateComponent 1 u) ∧
      PyError.duplicateComponent 1 u ≠ .configurationError) := by
  constructor
  · intro builtins st cfg hud hus husk hin hout
    simp [buildOn, hud, hus, husk, hin, hout, create_unit_disjunct,
      assignSelectorBlock, add_units_to_disjunct, addUnitsLoop,
      add_port_state_block, add_port_objects, create_inlet_list,
      create_outlet_list, rangeSet, List.range', wireRun, putAttrs,
      arc_selector_inlet_to_unit, arc_unit_outlet_to_selector]
  · intro builtins st cfg u hud hu
    constructor
    · simp only [buildOn, hud]
      have hstage : add_units_to_disjunct [u]
          (create_unit_disjunct builtins [u].length (assignSelectorBlock st)) =
          .error (.duplicateComponent 1 u) := by
        unfold add_units_to_disjunct addUnitsLoop
        rw [getDisjunct_of_le (by simp) (by simp)]
        simp only []
        rw [addNamed_err_of_mem ?hm]
        case hm =>
          show u ∈ getComps ((rangeSet 1).map (fun i => (i, builtins))) 1
          simpa [rangeSet, List.range', getComps] using hu
      rw [hstage]
    · intro hh
      cases hh

theorem c7_amended_witness :
    buildOn ["indicator_var"] emptyModel c7Cfg =
      .ok ⟨putAttr emptyModel.topAttrs "selector_block", [], [], []⟩ ∧
    (buildOn ["indicator_var"] emptyModel
        { c7Cfg with unit_disjunct := ["indicator_var"] } =
      .error (.duplicateComponent 1 "indicator_var") ∧
      PyError.duplicateComponent 1 "indicator_var" ≠ .configurationError) :=
  ⟨c7_amended.1 ["indicator_var"] emptyModel c7Cfg rfl rfl rfl rfl rfl,
    c7_amended.2 ["indicator_var"] emptyModel
      { c7Cfg with unit_disjunct := ["indicator_var"] } "indicator_var" rfl
      (by decide)⟩

/-- The result of the first `build` of `demoCfg`, for the double-build
test. -/
def c8First : ModelState :=
  match buildModel [] demoCfg with
  | .ok s => s
  | .error _ => default

/-- `demoCfg` without a `unit_source` template: `build` fails with the
attribute lookup error on `config`. -/
def c8BadCfg : SelConfig := { demoCfg with unit_source := false }

/-- C8 counterexample: calling `build` a second time on the already-built
structure does not fail at all — each same-named component is implicitly
replaced and the rebuilt structure equals the first build's exactly, so in
particular the claimed ConfigurationError/BurntToast never appears and
nothing is duplicated. -/
theorem c8_counterexample :
    buildModel [] demoCfg = .ok c8First ∧
    buildOn [] c8First demoCfg = .ok c8First ∧
    (Except.ok c8First : Except PyError ModelState) ≠
      .error .configurationError ∧
    (Except.ok c8First : Except PyError ModelState) ≠ .error .burntToast := by
  refine ⟨rfl, rfl, ?_, ?_⟩
  · intro hh
    cases hh
  · intro hh
    cases hh

/-- C8 amended: a second `build` never fails with ConfigurationError or
BurntToast — the module raises neither, anywhere: every failure is an
AttributeError / duplicate-component RuntimeError / IndexError of the
component framework — and it never silently duplicates branches, ports, or
edges: attribute names, branch indices and (branch, name) arc identities
stay duplicate-free, and when both builds succeed the second reproduces the
first build's attribute set, arcs, disjunction and branch indices (every
same-named component having been implicitly replaced). -/
theorem c8_amended :
    (∀ (builtins : List String) (st : ModelState) (cfg : SelConfig)
      (e : PyError), buildOn builtins st cfg = .error e →
      e ≠ .configurationError ∧ e ≠ .burntToast) ∧
    (∀ (builtins : List String) (st : ModelState) (cfg : SelConfig)
      (r : ModelState), st.topAttrs.Nodup → buildOn builtins st cfg = .ok r →
      r.topAttrs.Nodup ∧ (r.branches.map Prod.fst).Nodup ∧
      (r.arcs.map (fun a => (a.branch, a.name))).Nodup) ∧
    (∀ (builtins : List String) (cfg : SelConfig) (r r₂ : ModelState),
      buildOn builtins emptyModel cfg = .ok r →
      buildOn builtins r cfg = .ok r₂ →
      r₂.topAttrs = r.topAttrs ∧ r₂.arcs = r.arcs ∧
      r₂.disjunction = r.disjunction ∧
      r₂.branches.map Prod.fst = r.branches.map Prod.fst) := by
  refine ⟨?_, ?_, ?_⟩
  · intro builtins st cfg e h
    have hf := buildOn_err_frame h
    cases e <;> simp_all [frameworkErrorB]
  · intro builtins st cfg r htop h
    exact buildOn_ok_nodup htop h
  · intro builtins cfg r r₂ h1 h2
    obtain ⟨hk1, hd1, ha1, ht1⟩ := buildOn_ok_elim h1
    obtain ⟨hk2, hd2, ha2, ht2⟩ := buildOn_ok_elim h2
    have hsb : "selector_block" ∈ r.topAttrs := by
      rw [ht1]
      exact mem_putAttrs_left (mem_putAttr_self _ _) _
    have hnames : ∀ x ∈ buildAttrNames cfg, x ∈ r.topAttrs := by
      intro x hx
      rw [ht1]
      exact mem_putAttrs_right hx _
    refine ⟨?_, ?_, ?_, ?_⟩
    · rw [ht2, putAttr_of_mem hsb, putAttrs_of_subset hnames]
    · rw [ha2, ha1]
    · rw [hd2, hd1]
    · rw [hk2, hk1]

theorem c8_amended_witness :
    (PyError.attributeError "config" ≠ .configurationError ∧
      PyError.attributeError "config" ≠ .burntToast) ∧
    (c8First.topAttrs.Nodup ∧ (c8First.branches.map Prod.fst).Nodup ∧
      (c8First.arcs.map (fun a => (a.branch, a.name))).Nodup) ∧
    (c8First.topAttrs = c8First.topAttrs ∧ c8First.arcs = c8First.arcs ∧
      c8First.disjunction = c8First.disjunction ∧
      c8First.branches.map Prod.fst = c8First.branches.map Prod.fst) :=
  ⟨c8_amended.1 [] emptyModel c8BadCfg (.attributeError "config") rfl,
    c8_amended.2.1 [] emptyModel demoCfg c8First (by decide) rfl,
    c8_amended.2.2 [] demoCfg c8First c8First rfl rfl⟩

/-- Configuration for the C10 counterexample: two distinct inlet indices
(1 and 3) each supply a fan-out list of length 2, with a length-1 entry at
index 2 between them. -/
def c10Cfg : SelConfig :=
  { unit_disjunct := ["u1", "u2"]
    unit_source := true
    unit_sink := true
    unit_disjunct_inlet := [(1, [11, 12]), (2, [13]), (3, [14, 15])]
    unit_disjunct_outlet := []
    mixed_state_block := none
    construct_ports := true }

/-- C10 counterexample: two distinct inlet indices each supply a fan-out
list of length > 1, yet `build` does not fail "when adding the second
index's edges to branch 1": the interleaved length-1 entry at index 2
collides first — `build` fails with the duplicate-component error at branch
2 under the name `inlet_to_unit_arc_2`, before the second fan-out index is
even processed. -/
theorem c10_counterexample :
    buildModel [] c10Cfg =
      .error (.duplicateComponent 2 "inlet_to_unit_arc_2") ∧
    PyError.duplicateComponent 2 "inlet_to_unit_arc_2" ≠
      .duplicateComponent 1 "inlet_to_unit_arc_1" := by
  constructor
  · rfl
  · decide

/-- C10 amended: because fan-out edge names encode only the branch counter,
any wiring mapping (inlet or outlet direction) with at least two fan-out
entries — all entries referencing declared ports and branches, with lengths
in `1..N` — fails with a duplicate-component error; when the two fan-out
entries are processed with no colliding entry before them (in particular
when they are the only entries), the failure is exactly at branch 1 while
adding the second fan-out's first edge, under branch 1's arc name.  An
interleaved length-1 entry whose branch was already wired by the first
fan-out collides earlier, at its own branch. -/
theorem c10_amended :
    (∀ (isIn : Bool) (n m : Nat) (entries : List (Nat × List Nat))
      (st : ModelState), (∀ e ∈ entries, entryValid n m e) →
      2 ≤ entries.countP (fun e => decide (1 < e.2.length)) →
      isDupB (wireRun n m true isIn entries st) = true) ∧
    (∀ (isIn : Bool) (n m k₁ k₂ : Nat) (l₁ l₂ : List Nat) (st : ModelState),
      entryValid n m (k₁, l₁) → entryValid n m (k₂, l₂) →
      1 < l₁.length → 1 < l₂.length →
      (∀ j ∈ rangeSet n, wireName isIn j ∉ getComps st.branches j) →
      wireRun n m true isIn [(k₁, l₁), (k₂, l₂)] st =
        .error (.duplicateComponent 1 (wireName isIn 1))) := by
  constructor
  · intro isIn n m entries st hv hc
    exact wireRun_two_fanouts_dup rfl hv hc
  · intro isIn n m k₁ k₂ l₁ l₂ st hv1 hv2 hl1 hl2 hclean
    obtain ⟨hk11, hk12, hk13, hl11, hl12⟩ := hv1
    have hlen1 : l₁.length ≤ n := hl12
    have hclean' : ∀ j, 1 ≤ j → j < 1 + l₁.length →
        wireName isIn j ∉ getComps st.branches j := by
      intro j hj1 hj2
      have hj3 : j ≤ n := by omega
      exact hclean j (mem_rangeSet.mpr ⟨hj1, hj3⟩)
    obtain ⟨st1, hok, _, hcomps⟩ := @wireFanoutLoop_clean n m true isIn k₁ l₁
      1 st rfl hk11 hk12 le_rfl (by omega) hclean'
    have hocc : wireName isIn 1 ∈ getComps st1.branches 1 := by
      rw [hcomps 1, if_pos ⟨le_rfl, by omega⟩]
      exact List.mem_append_right _ (List.mem_singleton_self _)
    have hstep1 : wireEntryStep n m true isIn (k₁, l₁) st = .ok st1 := by
      unfold wireEntryStep
      rw [if_pos hl1]
      exact hok
    have hstep2 : wireEntryStep n m true isIn (k₂, l₂) st1 =
        .error (.duplicateComponent 1 (wireName isIn 1)) :=
      wireEntryStep_dup_of_occupied rfl hv2 hl2 hocc
    simp only [wireRun]
    rw [hstep1]
    simp only []
    rw [hstep2]

theorem c10_amended_witness :
    isDupB (wireRun 2 2 true true [(1, [11, 12]), (2, [13, 14])] c4Start2) =
      true ∧
    wireRun 2 2 true true [(1, [11, 12]), (2, [13, 14])] c4Start2 =
      .error (.duplicateComponent 1 (wireName true 1)) :=
  ⟨c10_amended.1 true 2 2 [(1, [11, 12]), (2, [13, 14])] c4Start2 (by decide)
      (by decide),
    c10_amended.2 true 2 2 1 2 [11, 12] [13, 14] c4Start2 (by decide)
      (by decide) (by decide) (by decide) (by decide)⟩

end UnitSelectorV3
